import Mathlib

/-
Verification of the Paper-Port trading engine (Rust, src/engine/src).
The numeric model uses exact rationals in place of f64: claims under scrutiny
concern zero/sign/ordering structure, which the exact model preserves.
Square roots and fractional powers, irrational in general, are modelled by
computable rational stand-ins that agree with the real functions on the
properties the claims use (sign, zero at zero, exactness on the cases the
code reaches in the theorems below).
-/

namespace PaperPort

/-- Truncation of a rational toward zero, modelling Rust's f64-to-integer
cast (as i64 / as usize) on in-range values. -/
def truncQ (q : ℚ) : ℤ := if q < 0 then -⌊-q⌋ else ⌊q⌋

/-- Rounding half away from zero, modelling Rust's f64::round. -/
def roundQ (q : ℚ) : ℤ := if q < 0 then -⌊-q + 1/2⌋ else ⌊q + 1/2⌋

/-- round2 from backtest.rs, risk.rs, walk_forward.rs: (v * 100.0).round() / 100.0. -/
def round2 (v : ℚ) : ℚ := (roundQ (v * 100) : ℚ) / 100

/-- round4 from risk.rs: (v * 10000.0).round() / 10000.0. -/
def round4 (v : ℚ) : ℚ := (roundQ (v * 10000) : ℚ) / 10000

/-- One Heron iteration toward the square root of q. -/
def heronStep (q x : ℚ) : ℚ := (x + q / x) / 2

/-- Rational stand-in for f64::sqrt: three Heron iterations from a positive
seed. It is positive exactly on positive inputs and 0 at 0 and below, which
is all the guarded formulas in the engine depend on. -/
def sqrtQ (q : ℚ) : ℚ :=
  if q ≤ 0 then 0 else heronStep q (heronStep q (heronStep q ((q + 1) / 2)))

/-- Rational stand-in for f64::powf, exact on base 1 (as IEEE powf is) and
on integral exponents - the only cases reached in the theorems below. -/
def powQ (x y : ℚ) : ℚ :=
  if x = 1 then 1 else if (⌊y⌋ : ℚ) = y then x ^ ⌊y⌋ else 0

theorem truncQ_zero : truncQ 0 = 0 := by
  unfold truncQ
  norm_num

theorem truncQ_nonneg {q : ℚ} (h : 0 ≤ q) : 0 ≤ truncQ q := by
  unfold truncQ
  rw [if_neg (not_lt.mpr h)]
  exact Int.floor_nonneg.mpr h

theorem truncQ_cast_le {q : ℚ} (h : 0 ≤ q) : (truncQ q : ℚ) ≤ q := by
  unfold truncQ
  rw [if_neg (not_lt.mpr h)]
  exact Int.floor_le q

theorem roundQ_intCast (n : ℤ) : roundQ (n : ℚ) = n := by
  unfold roundQ
  by_cases h : (n : ℚ) < 0
  · rw [if_pos h]
    have e : -(n : ℚ) + 1/2 = ((-n : ℤ) : ℚ) + 1/2 := by push_cast; ring
    rw [e, Int.floor_int_add]
    norm_num
  · rw [if_neg h, show ((n : ℚ) + 1/2 : ℚ) = ((n : ℤ) : ℚ) + 1/2 from rfl, Int.floor_int_add]
    norm_num

theorem round2_round2 (v : ℚ) : round2 (round2 v) = round2 v := by
  unfold round2
  rw [div_mul_cancel₀ _ (by norm_num : (100 : ℚ) ≠ 0), roundQ_intCast]

theorem roundQ_mono : Monotone roundQ := by
  intro q r h
  unfold roundQ
  by_cases hq : q < 0
  · by_cases hr : r < 0
    · rw [if_pos hq, if_pos hr]
      have : -r + 1/2 ≤ -q + 1/2 := by linarith
      exact neg_le_neg (Int.floor_le_floor this)
    · rw [if_pos hq, if_neg hr]
      have h1 : (0 : ℤ) ≤ ⌊r + 1/2⌋ := Int.floor_nonneg.mpr (by push_neg at hr; linarith)
      have h2 : (0 : ℤ) ≤ ⌊-q + 1/2⌋ := Int.floor_nonneg.mpr (by linarith)
      omega
  · rw [if_neg hq]
    have hr : ¬ r < 0 := by push_neg at hq ⊢; linarith
    rw [if_neg hr]
    exact Int.floor_le_floor (by linarith)

theorem round2_mono {v w : ℚ} (h : v ≤ w) : round2 v ≤ round2 w := by
  unfold round2
  have := roundQ_mono (mul_le_mul_of_nonneg_right h (by norm_num : (0:ℚ) ≤ 100))
  have : ((roundQ (v * 100) : ℚ)) ≤ ((roundQ (w * 100) : ℚ)) := by exact_mod_cast this
  linarith

theorem roundQ_neg (q : ℚ) : roundQ (-q) = -roundQ q := by
  unfold roundQ
  rcases lt_trichotomy q 0 with h | h | h
  · rw [if_neg (by linarith : ¬ -q < 0), if_pos h, neg_neg]
  · subst h; norm_num
  · rw [if_pos (by linarith : -q < 0), if_neg (by linarith : ¬ q < 0), neg_neg]

theorem round2_neg (v : ℚ) : round2 (-v) = -round2 v := by
  unfold round2
  rw [neg_mul, roundQ_neg]
  push_cast
  ring

theorem round2_nonneg {v : ℚ} (h : 0 ≤ v) : 0 ≤ round2 v := by
  unfold round2 roundQ
  rw [if_neg (not_lt.mpr (by positivity : (0:ℚ) ≤ v * 100))]
  have h2 : (0 : ℤ) ≤ ⌊v * 100 + 1/2⌋ := Int.floor_nonneg.mpr (by positivity)
  have h3 : (0 : ℚ) ≤ (⌊v * 100 + 1/2⌋ : ℚ) := by exact_mod_cast h2
  linarith

theorem round2_zero : round2 0 = 0 := by
  unfold round2 roundQ
  norm_num

theorem round4_zero : round4 0 = 0 := by
  unfold round4 roundQ
  norm_num

theorem round2_abs (v : ℚ) : |round2 v| = round2 |v| := by
  rcases le_or_lt 0 v with h | h
  · rw [abs_of_nonneg h, abs_of_nonneg (round2_nonneg h)]
  · rw [abs_of_neg h, round2_neg]
    have h1 : round2 v ≤ 0 := by
      have h2 := round2_mono (le_of_lt h)
      rwa [round2_zero] at h2
    exact abs_of_nonpos h1

theorem heronStep_pos {q x : ℚ} (hq : 0 < q) (hx : 0 < x) : 0 < heronStep q x := by
  unfold heronStep
  positivity

theorem sqrtQ_pos {q : ℚ} (h : 0 < q) : 0 < sqrtQ q := by
  unfold sqrtQ
  rw [if_neg (not_le.mpr h)]
  have h0 : (0 : ℚ) < (q + 1) / 2 := by positivity
  exact heronStep_pos h (heronStep_pos h (heronStep_pos h h0))

theorem sqrtQ_of_nonpos {q : ℚ} (h : q ≤ 0) : sqrtQ q = 0 := by
  unfold sqrtQ
  rw [if_pos h]

namespace Backtest

/-- Candle from backtest.rs (the CandleInput / CandleWF structs of
optimize.rs and walk_forward.rs are field-for-field identical). The field
named open in Rust is open_price here, open being a Lean keyword. -/
structure Candle where
  timestamp : String
  open_price : ℚ
  high : ℚ
  low : ℚ
  close : ℚ
  volume : ℚ
  deriving DecidableEq

/-- A concrete parameter set: one JSON object of numeric entries, in key
order. Stands in for the serde_json Value objects built by
generate_combinations. -/
abbrev ParameterSet := List (String × ℚ)

/-- BacktestConfig from backtest.rs. -/
structure BacktestConfig where
  strategy : String
  symbol : String
  initial_capital : ℚ
  candles : List Candle
  params : Option ParameterSet
  deriving DecidableEq

structure EquityPoint where
  date : String
  nav : ℚ
  deriving DecidableEq

structure TradeEntry where
  symbol : String
  side : String
  entry_price : ℚ
  exit_price : ℚ
  qty : ℤ
  pnl : ℚ
  entry_time : String
  exit_time : String
  deriving DecidableEq

structure BacktestResult where
  cagr : ℚ
  max_drawdown : ℚ
  sharpe_ratio : ℚ
  sortino_ratio : ℚ
  win_rate : ℚ
  profit_factor : ℚ
  total_trades : ℕ
  avg_win : ℚ
  avg_loss : ℚ
  equity_curve : List EquityPoint
  trade_log : List TradeEntry
  deriving DecidableEq

/-- ema from backtest.rs lines 165-173: seed with the close period bars
back, then fold the exponential update over the remaining closes. The
empty-match arm is unreachable for the periods 9 and 21 used by run. -/
def ema (candles : List Candle) (period : ℕ) : ℚ :=
  if candles.length < period then 0
  else
    let multiplier : ℚ := 2 / ((period : ℚ) + 1)
    match candles.drop (candles.length - period) with
    | [] => 0
    | c :: rest => rest.foldl (fun e cc => (cc.close - e) * multiplier + e) c.close

/-- The mutable state of the run loop in backtest.rs lines 68-73. -/
structure SimState where
  nav : ℚ
  peak : ℚ
  max_dd : ℚ
  trades : List TradeEntry
  equity : List EquityPoint
  position : Option (ℚ × String)
  deriving DecidableEq

def initState (cap : ℚ) : SimState := ⟨cap, cap, 0, [], [], none⟩

/-- The equity snapshot push at the top of each loop iteration
(backtest.rs lines 76-79): the current nav, before the bar's decision. -/
def pushEquity (candle : Candle) (st : SimState) : SimState :=
  { st with equity :=
      st.equity ++ [({ date := candle.timestamp, nav := st.nav } : EquityPoint)] }

/-- The strategy dispatch of backtest.rs lines 81-113: the two-state
ema-crossover machine for the recognized ids after a 21-bar warm-up, the
no-op arm otherwise. The source locals ema_short, ema_long, qty and pnl
are inlined at their use sites. Exit quantity is recomputed from the
current nav and the entry price, as in the source. -/
def strategyStep (cfg : BacktestConfig) (i : ℕ) (candle : Candle) (st : SimState) : SimState :=
  if cfg.strategy = "ema-crossover" ∨ cfg.strategy = "supertrend" then
    if 21 ≤ i then
      match st.position with
      | none =>
        if ema (cfg.candles.take (i + 1)) 21 < ema (cfg.candles.take (i + 1)) 9 then
          if 0 < truncQ (st.nav * (1/10) / candle.close) then
            { st with position := some (candle.close, candle.timestamp) }
          else st
        else st
      | some (entry_price, entry_time) =>
        if ema (cfg.candles.take (i + 1)) 9 < ema (cfg.candles.take (i + 1)) 21 then
          { st with
              nav := st.nav +
                (candle.close - entry_price) *
                  ((truncQ (st.nav * (1/10) / entry_price) : ℤ) : ℚ)
              trades := st.trades ++
                [({ symbol := cfg.symbol, side := "BUY", entry_price := entry_price,
                    exit_price := candle.close,
                    qty := truncQ (st.nav * (1/10) / entry_price),
                    pnl := (candle.close - entry_price) *
                      ((truncQ (st.nav * (1/10) / entry_price) : ℤ) : ℚ),
                    entry_time := entry_time, exit_time := candle.timestamp } : TradeEntry)]
              position := none }
        else st
    else st
  else st

/-- The running peak and max drawdown update at the bottom of each loop
iteration (backtest.rs lines 115-117). -/
def peakUpdate (st : SimState) : SimState :=
  let peak := if st.peak < st.nav then st.nav else st.peak
  { st with
      peak := peak
      max_dd :=
        if st.max_dd < (peak - st.nav) / peak then (peak - st.nav) / peak else st.max_dd }

/-- One iteration of the run loop of backtest.rs lines 75-118, at index i
over the given candle. -/
def stepBar (cfg : BacktestConfig) (i : ℕ) (candle : Candle) (st : SimState) : SimState :=
  peakUpdate (strategyStep cfg i candle (pushEquity candle st))

/-- The list of loop states after each bar of the single forward pass,
starting from state st at index i. -/
def simStates (cfg : BacktestConfig) : List Candle → ℕ → SimState → List SimState
  | [], _, _ => []
  | c :: rest, i, st =>
    stepBar cfg i c st :: simStates cfg rest (i + 1) (stepBar cfg i c st)

/-- States of the full pass over cfg.candles. -/
def runTrace (cfg : BacktestConfig) : List SimState :=
  simStates cfg cfg.candles 0 (initState cfg.initial_capital)

/-- Final state of the run loop. -/
def finalState (cfg : BacktestConfig) : SimState :=
  (runTrace cfg).getLastD (initState cfg.initial_capital)

/-- Winning trade PnLs (backtest.rs line 120). -/
def winsOf (trades : List TradeEntry) : List ℚ :=
  (trades.filter (fun t => 0 < t.pnl)).map (fun t => t.pnl)

/-- Absolute values of losing trade PnLs (backtest.rs line 121). -/
def lossesOf (trades : List TradeEntry) : List ℚ :=
  (trades.filter (fun t => t.pnl < 0)).map (fun t => |t.pnl|)

/-- Per-trade returns relative to initial capital (backtest.rs line 130). -/
def returnsOf (trades : List TradeEntry) (cap : ℚ) : List ℚ :=
  trades.map (fun t => t.pnl / cap)

/-- Mean per-trade return (backtest.rs line 131). -/
def meanReturn (trades : List TradeEntry) (cap : ℚ) : ℚ :=
  let rs := returnsOf trades cap
  if rs = [] then 0 else rs.sum / rs.length

/-- Population variance of per-trade returns, 0 when fewer than two trades
(backtest.rs lines 132-134). -/
def varianceOf (trades : List TradeEntry) (cap : ℚ) : ℚ :=
  let rs := returnsOf trades cap
  if rs.length < 2 then 0
  else (rs.map (fun r => (r - meanReturn trades cap) ^ 2)).sum / rs.length

/-- Sharpe ratio before rounding (backtest.rs lines 135-136). -/
def sharpeOf (trades : List TradeEntry) (cap : ℚ) : ℚ :=
  let std_dev := sqrtQ (varianceOf trades cap)
  if 0 < std_dev then meanReturn trades cap / std_dev * sqrtQ 252 else 0

/-- Downside variance over the strictly negative returns (backtest.rs
lines 138-141). -/
def downVarOf (trades : List TradeEntry) (cap : ℚ) : ℚ :=
  let neg := (returnsOf trades cap).filter (fun r => r < 0)
  if neg = [] then 0 else (neg.map (fun r => r ^ 2)).sum / neg.length

/-- Sortino ratio before rounding (backtest.rs line 142). -/
def sortinoOf (trades : List TradeEntry) (cap : ℚ) : ℚ :=
  if 0 < downVarOf trades cap then
    meanReturn trades cap / sqrtQ (downVarOf trades cap) * sqrtQ 252
  else 0

/-- CAGR before rounding (backtest.rs lines 144-146). -/
def cagrOf (cap nav : ℚ) (barCount : ℕ) : ℚ :=
  let total_return := (nav - cap) / cap
  let years := (barCount : ℚ) / 252
  if 0 < years then (powQ (1 + total_return) (1 / years) - 1) * 100 else 0

/-- Win rate in percent (backtest.rs line 123). -/
def winRateOf (trades : List TradeEntry) : ℚ :=
  if trades = [] then 0 else ((winsOf trades).length : ℚ) / (trades.length : ℚ) * 100

/-- Profit factor (backtest.rs line 126). -/
def profitFactorOf (trades : List TradeEntry) : ℚ :=
  if 0 < (lossesOf trades).sum then (winsOf trades).sum / (lossesOf trades).sum else 0

/-- Average winning PnL (backtest.rs line 127). -/
def avgWinOf (trades : List TradeEntry) : ℚ :=
  if winsOf trades = [] then 0 else (winsOf trades).sum / ((winsOf trades).length : ℚ)

/-- Average losing magnitude (backtest.rs line 128). -/
def avgLossOf (trades : List TradeEntry) : ℚ :=
  if lossesOf trades = [] then 0 else (lossesOf trades).sum / ((lossesOf trades).length : ℚ)

/-- The all-zero result returned for an empty candle series
(backtest.rs lines 60-66). -/
def zeroResult : BacktestResult := ⟨0, 0, 0, 0, 0, 0, 0, 0, 0, [], []⟩

/-- The body of backtest.rs run after deserialization: early all-zero
return on empty candles, else the single forward pass followed by the
statistics block. -/
def runResult (cfg : BacktestConfig) : BacktestResult :=
  if cfg.candles = [] then zeroResult
  else
    let fin := finalState cfg
    { cagr := round2 (cagrOf cfg.initial_capital fin.nav cfg.candles.length)
      max_drawdown := round2 (fin.max_dd * 100)
      sharpe_ratio := round2 (sharpeOf fin.trades cfg.initial_capital)
      sortino_ratio := round2 (sortinoOf fin.trades cfg.initial_capital)
      win_rate := round2 (winRateOf fin.trades)
      profit_factor := round2 (profitFactorOf fin.trades)
      total_trades := fin.trades.length
      avg_win := round2 (avgWinOf fin.trades)
      avg_loss := round2 (avgLossOf fin.trades)
      equity_curve := fin.equity
      trade_log := fin.trades }

/-- backtest.rs run on an already-deserialized config. The two Err paths of
the Rust function are JSON (de)serialization failures, which cannot occur
for the in-memory configs modelled here, so the result is always Ok. -/
def run (cfg : BacktestConfig) : Except String BacktestResult :=
  Except.ok (runResult cfg)

end Backtest

namespace Risk

/-- RiskInput from risk.rs. -/
structure RiskInput where
  returns : List ℚ
  initial_capital : ℚ
  risk_free_rate : Option ℚ
  deriving DecidableEq

/-- RiskOutput from risk.rs. -/
structure RiskOutput where
  sharpe_ratio : ℚ
  sortino_ratio : ℚ
  calmar_ratio : ℚ
  max_drawdown : ℚ
  max_drawdown_percent : ℚ
  var_95 : ℚ
  var_99 : ℚ
  cvar_95 : ℚ
  beta : ℚ
  alpha : ℚ
  volatility : ℚ
  annualized_return : ℚ
  deriving DecidableEq

/-- The all-zero output returned for an empty return series
(risk.rs lines 31-38). -/
def zeroOutput : RiskOutput := ⟨0, 0, 0, 0, 0, 0, 0, 0, 0, 0, 0, 0⟩

/-- The compounding nav / running peak / max drawdown loop of risk.rs
lines 60-68, on state (nav, peak, max_dd). -/
def ddLoop : List ℚ → ℚ × ℚ × ℚ → ℚ × ℚ × ℚ
  | [], s => s
  | r :: rest, (nav, peak, md) =>
    let nav' := nav * (1 + r)
    let peak' := if peak < nav' then nav' else peak
    let dd := (peak' - nav') / peak'
    ddLoop rest (nav', peak', if md < dd then dd else md)

/-- The ascending in-place sort of risk.rs lines 72-73. Rust's sort_by is a
stable sort under the total comparator partial_cmp (total on these exact
values), which a stable insertion sort reproduces exactly. -/
def sortedReturns (rs : List ℚ) : List ℚ := rs.insertionSort (· ≤ ·)

/-- var_95_idx from risk.rs line 74: ((1.0 - 0.95) * n) as usize. -/
def var95Idx (rs : List ℚ) : ℕ := (truncQ ((1 - 95/100) * (rs.length : ℚ))).toNat

/-- var_99_idx from risk.rs line 75. -/
def var99Idx (rs : List ℚ) : ℕ := (truncQ ((1 - 99/100) * (rs.length : ℚ))).toNat

/-- var_95 before rounding (risk.rs line 76). -/
def var95Pre (input : RiskInput) : ℚ :=
  if var95Idx input.returns < (sortedReturns input.returns).length then
    -((sortedReturns input.returns).getD (var95Idx input.returns) 0) * input.initial_capital
  else 0

/-- var_99 before rounding (risk.rs line 77). -/
def var99Pre (input : RiskInput) : ℚ :=
  if var99Idx input.returns < (sortedReturns input.returns).length then
    -((sortedReturns input.returns).getD (var99Idx input.returns) 0) * input.initial_capital
  else 0

/-- cvar_95 before rounding (risk.rs lines 78-80): minus the mean of the
smallest var_95_idx returns, falling back to var_95 when that count is 0. -/
def cvar95Pre (input : RiskInput) : ℚ :=
  if 0 < var95Idx input.returns then
    -(((sortedReturns input.returns).take (var95Idx input.returns)).sum) /
      ((var95Idx input.returns : ℕ) : ℚ) * input.initial_capital
  else var95Pre input

/-- risk.rs compute after deserialization. The Rust Err paths are JSON
(de)serialization failures only, so the body is total here. -/
def compute (input : RiskInput) : RiskOutput :=
  if input.returns = [] then zeroOutput
  else
    let rf := input.risk_free_rate.getD (6/100 / 252)
    let n : ℚ := (input.returns.length : ℚ)
    let mean_ret := input.returns.sum / n
    let mean_excess := ((input.returns.map (fun r => r - rf)).sum) / n
    let variance := ((input.returns.map (fun r => (r - mean_ret) ^ 2)).sum) / n
    let std_dev := sqrtQ variance
    let volatility := std_dev * sqrtQ 252
    let annualized_return := mean_ret * 252
    let sharpe := if 0 < std_dev then mean_excess / std_dev * sqrtQ 252 else 0
    let neg := input.returns.filter (fun r => r < 0)
    let down_var := if neg = [] then 0 else ((neg.map (fun r => r ^ 2)).sum) / (neg.length : ℚ)
    let down_dev := sqrtQ down_var
    let sortino := if 0 < down_dev then mean_excess / down_dev * sqrtQ 252 else 0
    let max_dd := (ddLoop input.returns (input.initial_capital, input.initial_capital, 0)).2.2
    let calmar := if 0 < max_dd then annualized_return / (max_dd * 100) else 0
    { sharpe_ratio := round2 sharpe
      sortino_ratio := round2 sortino
      calmar_ratio := round4 calmar
      max_drawdown := round2 (max_dd * input.initial_capital)
      max_drawdown_percent := round2 (max_dd * 100)
      var_95 := round2 (var95Pre input)
      var_99 := round2 (var99Pre input)
      cvar_95 := round2 (cvar95Pre input)
      beta := 0
      alpha := 0
      volatility := round2 (volatility * 100)
      annualized_return := round2 (annualized_return * 100) }

end Risk

/-- Outcome kinds for the fallible engine entry points: err models a Rust
Err value returned to the caller, panicked models a Rust panic (process
abort), which is not an error return. -/
inductive Failure where
  | err (msg : String)
  | panicked (msg : String)
  deriving DecidableEq

namespace Grid

/-- A parameter grid: the HashMap of optimize.rs / walk_forward.rs,
represented as its key iteration order (an association list). -/
abbrev ParamGrid := List (String × List ℚ)

/-- Builds one combination from the current odometer indices
(optimize.rs lines 148-155). An out-of-range index - which happens exactly
when some candidate list is empty - yields none, modelling the Rust
index-out-of-bounds panic. -/
def buildCombo : ParamGrid → List ℕ → Option Backtest.ParameterSet
  | [], [] => some []
  | (k, vs) :: g, i :: is =>
    match vs[i]?, buildCombo g is with
    | some v, some rest => some ((k, v) :: rest)
    | _, _ => none
  | _, _ => none

/-- The carry loop of optimize.rs lines 157-167: increment the last index
first, wrapping to 0 and carrying leftward; returns the new indices and
whether the carry survived past the first key. -/
def advance : ParamGrid → List ℕ → List ℕ × Bool
  | [], [] => ([], true)
  | (_, vs) :: g, i :: is =>
    let (is', carry) := advance g is
    if carry then
      if vs.length ≤ i + 1 then (0 :: is', true) else ((i + 1) :: is', false)
    else (i :: is', false)
  | _, _ => ([], true)

/-- The odometer loop of optimize.rs lines 147-171, with explicit fuel.
When every candidate list is nonempty it runs exactly one iteration per
combination (proved below), so the fuel passed by generate_combinations
never runs out. -/
def genLoop (grid : ParamGrid) : ℕ → List ℕ → Option (List Backtest.ParameterSet)
  | 0, _ => some []
  | fuel + 1, idx =>
    match buildCombo grid idx with
    | none => none
    | some combo =>
      let (idx', carry) := advance grid idx
      if carry then some [combo]
      else
        match genLoop grid fuel idx' with
        | none => none
        | some rest => some (combo :: rest)

/-- Number of combinations: the product of the candidate list lengths. -/
def gridSize (grid : ParamGrid) : ℕ := (grid.map (fun kv => kv.2.length)).prod

/-- generate_combinations, identical in optimize.rs lines 136-174 and
walk_forward.rs lines 221-240: a single empty ParameterSet for an empty
grid, otherwise the odometer enumeration starting from all-zero indices.
The result is none exactly when the Rust code panics. -/
def generate_combinations (grid : ParamGrid) : Option (List Backtest.ParameterSet) :=
  if grid = [] then some [[]]
  else genLoop grid (max 1 (gridSize grid)) (List.replicate grid.length 0)

/-- The full Cartesian product in the enumeration order the odometer
produces: the first key is the most significant digit, the last key the
least significant (fastest cycling) one. -/
def cartesian : ParamGrid → List Backtest.ParameterSet
  | [] => [[]]
  | (k, vs) :: g => vs.flatMap fun v => (cartesian g).map fun c => (k, v) :: c

/-- Modelled from the spec (section 4.3): the enumeration order the spec
asserts, a stable odometer order over the grid keys with the first key as
the least-significant (fastest cycling) digit. Used only to compare the
spec's claimed order against the code's actual order. -/
def cartesianFirstLSD : ParamGrid → List Backtest.ParameterSet
  | [] => [[]]
  | (k, vs) :: g => (cartesianFirstLSD g).flatMap fun c => vs.map fun v => (k, v) :: c

end Grid

namespace Optimize

/-- OptimizeConfig from optimize.rs. -/
structure OptimizeConfig where
  strategy : String
  symbol : String
  initial_capital : ℚ
  candles : List Backtest.Candle
  param_grid : Grid.ParamGrid
  deriving DecidableEq

/-- ParamResult from optimize.rs. -/
structure ParamResult where
  params : Backtest.ParameterSet
  sharpe_ratio : ℚ
  win_rate : ℚ
  profit_factor : ℚ
  cagr : ℚ
  max_drawdown : ℚ
  total_trades : ℕ
  deriving DecidableEq

/-- OptimizeResult from optimize.rs. -/
structure OptimizeResult where
  best_params : Backtest.ParameterSet
  best_sharpe : ℚ
  best_win_rate : ℚ
  best_profit_factor : ℚ
  all_results : List ParamResult
  deriving DecidableEq

/-- One loop body of optimize.rs lines 71-111: run the backtest with the
combination as params and collect its statistics. The Err arm (the
sentinel with Sharpe = -infinity) is unreachable here because run on an
in-memory config always returns Ok. -/
def evalCombo (cfg : OptimizeConfig) (combo : Backtest.ParameterSet) : ParamResult :=
  let r := Backtest.runResult
    ⟨cfg.strategy, cfg.symbol, cfg.initial_capital, cfg.candles, some combo⟩
  ⟨combo, r.sharpe_ratio, r.win_rate, r.profit_factor, r.cagr, r.max_drawdown, r.total_trades⟩

/-- The descending-by-Sharpe comparator of optimize.rs line 113. -/
def sharpeDesc (a b : ParamResult) : Prop := b.sharpe_ratio ≤ a.sharpe_ratio

instance : DecidableRel sharpeDesc :=
  fun a b => inferInstanceAs (Decidable (b.sharpe_ratio ≤ a.sharpe_ratio))

instance : IsTotal ParamResult sharpeDesc := ⟨fun a b => le_total b.sharpe_ratio a.sharpe_ratio⟩

instance : IsTrans ParamResult sharpeDesc := ⟨fun _ _ _ h1 h2 => le_trans h2 h1⟩

/-- The unwrap_or default of optimize.rs lines 115-123. -/
def defaultBest : ParamResult := ⟨[], 0, 0, 0, 0, 0, 0⟩

/-- optimize.rs compute after deserialization. Rust's in-place stable
sort_by with the descending Sharpe comparator is modelled by the stable
insertion sort under sharpeDesc. -/
def compute (cfg : OptimizeConfig) : Except Failure OptimizeResult :=
  if cfg.candles = [] then .error (.err "No candles provided for optimization")
  else
    match Grid.generate_combinations cfg.param_grid with
    | none => .error (.panicked "index out of bounds in generate_combinations")
    | some combos =>
      if combos = [] then .error (.err "Empty parameter grid")
      else
        let sorted := (combos.map (evalCombo cfg)).insertionSort sharpeDesc
        let best := sorted.headD defaultBest
        .ok ⟨best.params, best.sharpe_ratio, best.win_rate, best.profit_factor, sorted⟩

end Optimize

namespace WalkForward

/-- WalkForwardConfig from walk_forward.rs. -/
structure WalkForwardConfig where
  strategy : String
  symbol : String
  initial_capital : ℚ
  candles : List Backtest.Candle
  param_grid : Grid.ParamGrid
  in_sample_ratio : Option ℚ
  num_folds : Option ℕ
  deriving DecidableEq

/-- FoldResult from walk_forward.rs. -/
structure FoldResult where
  fold : ℕ
  in_sample_sharpe : ℚ
  out_sample_sharpe : ℚ
  in_sample_win_rate : ℚ
  out_sample_win_rate : ℚ
  best_params : Backtest.ParameterSet
  out_sample_trades : ℕ
  out_sample_pnl : ℚ
  degradation : ℚ
  deriving DecidableEq

/-- AggregateMetrics from walk_forward.rs. -/
structure AggregateMetrics where
  avg_in_sample_sharpe : ℚ
  avg_out_sample_sharpe : ℚ
  avg_degradation : ℚ
  total_out_sample_trades : ℕ
  total_out_sample_pnl : ℚ
  consistency_score : ℚ
  deriving DecidableEq

/-- WalkForwardResult from walk_forward.rs. -/
structure WalkForwardResult where
  folds : List FoldResult
  aggregate : AggregateMetrics
  best_robust_params : Backtest.ParameterSet
  overfitting_score : ℚ
  deriving DecidableEq

/-- num_folds clamped to 2..=10 (walk_forward.rs line 66). -/
def numFoldsOf (cfg : WalkForwardConfig) : ℕ := min (max (cfg.num_folds.getD 5) 2) 10

/-- in_sample_ratio clamped to 0.5..=0.9 (walk_forward.rs line 67). -/
def isRatioOf (cfg : WalkForwardConfig) : ℚ :=
  min (max (cfg.in_sample_ratio.getD (7/10)) (1/2)) (9/10)

/-- fold_size = n / num_folds, usize division (walk_forward.rs line 69). -/
def foldSizeOf (cfg : WalkForwardConfig) : ℕ := cfg.candles.length / numFoldsOf cfg

/-- The fold's candle slice, walk_forward.rs lines 90-92: the last fold
absorbs the division remainder. -/
def foldCandles (cfg : WalkForwardConfig) (fold : ℕ) : List Backtest.Candle :=
  let n := cfg.candles.length
  let fold_end := if fold = numFoldsOf cfg - 1 then n else (fold + 1) * foldSizeOf cfg
  (cfg.candles.take fold_end).drop (fold * foldSizeOf cfg)

/-- split = (fold len as f64 * is_ratio) as usize (walk_forward.rs line 94). -/
def splitOf (cfg : WalkForwardConfig) (fold : ℕ) : ℕ :=
  (truncQ (((foldCandles cfg fold).length : ℚ) * isRatioOf cfg)).toNat

/-- The fold's in-sample segment (walk_forward.rs line 99). -/
def inSample (cfg : WalkForwardConfig) (fold : ℕ) : List Backtest.Candle :=
  (foldCandles cfg fold).take (splitOf cfg fold)

/-- The fold's out-of-sample segment (walk_forward.rs line 100). -/
def outSample (cfg : WalkForwardConfig) (fold : ℕ) : List Backtest.Candle :=
  (foldCandles cfg fold).drop (splitOf cfg fold)

/-- The backtest input assembled by walk_forward.rs for a candle slice and
a parameter combination. -/
def btConfig (cfg : WalkForwardConfig) (candles : List Backtest.Candle)
    (combo : Backtest.ParameterSet) : Backtest.BacktestConfig :=
  ⟨cfg.strategy, cfg.symbol, cfg.initial_capital, candles, some combo⟩

/-- The Sharpe ratio the fold search reads for one combination over a
candle slice: walk_forward.rs line 115. -/
def runSharpe (cfg : WalkForwardConfig) (candles : List Backtest.Candle)
    (combo : Backtest.ParameterSet) : ℚ :=
  (Backtest.runResult (btConfig cfg candles combo)).sharpe_ratio

/-- The in-sample search loop of walk_forward.rs lines 102-121, one
recursive step per combination. The first state component none stands for
the f64::NEG_INFINITY start value, which every Sharpe strictly exceeds;
run always returns Ok on these configs, so the if-let always takes the Ok
arm. -/
def bestLoop (cfg : WalkForwardConfig) (fold : ℕ) :
    List Backtest.ParameterSet → Option ℚ × Backtest.ParameterSet →
      Option ℚ × Backtest.ParameterSet
  | [], best => best
  | combo :: rest, best =>
    bestLoop cfg fold rest
      (match best.1 with
       | none => (some (runSharpe cfg (inSample cfg fold) combo), combo)
       | some b =>
         if b < runSharpe cfg (inSample cfg fold) combo then
           (some (runSharpe cfg (inSample cfg fold) combo), combo)
         else best)

/-- The in-sample grid search of a fold, started from (-infinity, {}). -/
def bestInSample (cfg : WalkForwardConfig) (combos : List Backtest.ParameterSet)
    (fold : ℕ) : Option ℚ × Backtest.ParameterSet :=
  bestLoop cfg fold combos (none, [])

/-- One fold body of walk_forward.rs lines 89-177; none models the
continue that skips undersized folds. The getD 0 below is reached only if
the combination list were empty, which compute rules out before any fold
is processed (bestInSample_isSome below), so it never stands in for the
Rust -infinity. -/
def processFold (cfg : WalkForwardConfig) (combos : List Backtest.ParameterSet)
    (fold : ℕ) : Option FoldResult :=
  let fc := foldCandles cfg fold
  let split := splitOf cfg fold
  if split < 15 ∨ fc.length - split < 5 then none
  else
    let best := bestInSample cfg combos fold
    let best_is_sharpe := best.1.getD 0
    let oos := Backtest.runResult (btConfig cfg (outSample cfg fold) best.2)
    let oos_pnl :=
      match oos.equity_curve.getLast? with
      | some p => p.nav - cfg.initial_capital
      | none => 0
    let is_wr := (Backtest.runResult (btConfig cfg (inSample cfg fold) best.2)).win_rate
    let degradation :=
      if 0 < best_is_sharpe then 1 - oos.sharpe_ratio / best_is_sharpe else 0
    some
      { fold := fold
        in_sample_sharpe := round2 best_is_sharpe
        out_sample_sharpe := round2 oos.sharpe_ratio
        in_sample_win_rate := round2 is_wr
        out_sample_win_rate := round2 oos.win_rate
        best_params := best.2
        out_sample_trades := oos.total_trades
        out_sample_pnl := round2 oos_pnl
        degradation := round2 degradation }

/-- param_scores accumulation (walk_forward.rs lines 163-164). Rust keys
the HashMap by the JSON serialization of the parameter set, an injective
encoding modelled by keying on the parameter set itself; per-key score
lists keep push order. -/
def addScore (scores : List (Backtest.ParameterSet × List ℚ))
    (key : Backtest.ParameterSet) (v : ℚ) : List (Backtest.ParameterSet × List ℚ) :=
  match scores with
  | [] => [(key, [v])]
  | (k, vs) :: rest =>
    if k = key then (k, vs ++ [v]) :: rest else (k, vs) :: addScore rest key v

/-- The scores pushed per fold. The pushed value equals the fold's stored
out_sample_sharpe because round2 is idempotent on backtest output. -/
def paramScores (folds : List FoldResult) : List (Backtest.ParameterSet × List ℚ) :=
  folds.foldl (fun acc f => addScore acc f.best_params f.out_sample_sharpe) []

/-- best_robust selection (walk_forward.rs lines 193-200): the parameter
set with the maximal mean out-of-sample Sharpe; Rust's max_by keeps the
last maximum in iteration order, modelled by replacing on ties. -/
def bestRobust (scores : List (Backtest.ParameterSet × List ℚ)) : Backtest.ParameterSet :=
  let best := scores.foldl
    (fun acc kv =>
      let avg := kv.2.sum / (kv.2.length : ℚ)
      match acc with
      | none => some (kv.1, avg)
      | some a => if a.2 ≤ avg then some (kv.1, avg) else acc)
    none
  match best with
  | some a => a.1
  | none => []

/-- walk_forward.rs compute after deserialization. -/
def compute (cfg : WalkForwardConfig) : Except Failure WalkForwardResult :=
  if cfg.candles.length < 60 then
    .error (.err "Need at least 60 candles for walk-forward analysis")
  else if foldSizeOf cfg < 20 then
    .error (.err "Not enough data for requested number of folds")
  else
    match Grid.generate_combinations cfg.param_grid with
    | none => .error (.panicked "index out of bounds in generate_combinations")
    | some combos =>
      if combos = [] then .error (.err "Empty parameter grid")
      else
        let folds := (List.range (numFoldsOf cfg)).filterMap (processFold cfg combos)
        if folds = [] then .error (.err "No valid folds produced")
        else
          let nf : ℚ := (folds.length : ℚ)
          let avg_is := (folds.map (fun f => f.in_sample_sharpe)).sum / nf
          let avg_oos := (folds.map (fun f => f.out_sample_sharpe)).sum / nf
          let avg_deg := (folds.map (fun f => f.degradation)).sum / nf
          let consistency :=
            ((folds.filter (fun f => 0 < f.out_sample_sharpe)).length : ℚ) / nf
          let overfit := if 0 < avg_is then (avg_is - avg_oos) / avg_is else 0
          .ok
            { folds := folds
              aggregate :=
                { avg_in_sample_sharpe := round2 avg_is
                  avg_out_sample_sharpe := round2 avg_oos
                  avg_degradation := round2 avg_deg
                  total_out_sample_trades := (folds.map (fun f => f.out_sample_trades)).sum
                  total_out_sample_pnl := round2 ((folds.map (fun f => f.out_sample_pnl)).sum)
                  consistency_score := round2 consistency }
              best_robust_params := bestRobust (paramScores folds)
              overfitting_score := round2 (min (max overfit 0) 1) }

end WalkForward

section NoopStrategy

open Backtest

theorem stepBar_noop (cfg : BacktestConfig)
    (h : ¬(cfg.strategy = "ema-crossover" ∨ cfg.strategy = "supertrend"))
    (i : ℕ) (c : Candle) (v : ℚ) (tr : List TradeEntry) (eqt : List EquityPoint)
    (pos : Option (ℚ × String)) :
    stepBar cfg i c ⟨v, v, 0, tr, eqt, pos⟩ =
      ⟨v, v, 0, tr, eqt ++ [⟨c.timestamp, v⟩], pos⟩ := by
  unfold stepBar
  have h1 : strategyStep cfg i c (pushEquity c ⟨v, v, 0, tr, eqt, pos⟩) =
      pushEquity c ⟨v, v, 0, tr, eqt, pos⟩ := by
    unfold strategyStep
    rw [if_neg h]
  rw [h1]
  simp [peakUpdate, pushEquity]

theorem simStates_noop_last (cfg : BacktestConfig)
    (h : ¬(cfg.strategy = "ema-crossover" ∨ cfg.strategy = "supertrend")) :
    ∀ (cs : List Candle) (i : ℕ) (v : ℚ) (tr : List TradeEntry)
      (eqt : List EquityPoint) (pos : Option (ℚ × String)),
    (simStates cfg cs i ⟨v, v, 0, tr, eqt, pos⟩).getLastD ⟨v, v, 0, tr, eqt, pos⟩ =
      ⟨v, v, 0, tr, eqt ++ cs.map (fun c => ⟨c.timestamp, v⟩), pos⟩ := by
  intro cs
  induction cs with
  | nil => intro i v tr eqt pos; simp [simStates]
  | cons c rest ih =>
    intro i v tr eqt pos
    rw [simStates, stepBar_noop cfg h, List.getLastD_cons, ih]
    simp

theorem sharpeOf_nil (cap : ℚ) : sharpeOf [] cap = 0 := by
  norm_num [sharpeOf, varianceOf, returnsOf, sqrtQ]

theorem sortinoOf_nil (cap : ℚ) : sortinoOf [] cap = 0 := by
  norm_num [sortinoOf, downVarOf, returnsOf]

theorem winRateOf_nil : winRateOf [] = 0 := by
  norm_num [winRateOf]

theorem profitFactorOf_nil : profitFactorOf [] = 0 := by
  norm_num [profitFactorOf, lossesOf, winsOf]

theorem avgWinOf_nil : avgWinOf [] = 0 := by
  norm_num [avgWinOf, winsOf]

theorem avgLossOf_nil : avgLossOf [] = 0 := by
  norm_num [avgLossOf, lossesOf]

theorem cagrOf_flat (cap : ℚ) (n : ℕ) : cagrOf cap cap n = 0 := by
  unfold cagrOf
  by_cases h : (0:ℚ) < (n:ℚ)/252
  · rw [if_pos h]
    norm_num [powQ]
  · rw [if_neg h]

/-- Closed form of a backtest with an unrecognized strategy: the all-flat
report with one equity point per candle. -/
theorem runResult_noop (cfg : BacktestConfig)
    (h1 : cfg.strategy ≠ "ema-crossover") (h2 : cfg.strategy ≠ "supertrend")
    (hne : cfg.candles ≠ []) :
    runResult cfg =
      { cagr := 0, max_drawdown := 0, sharpe_ratio := 0, sortino_ratio := 0,
        win_rate := 0, profit_factor := 0, total_trades := 0, avg_win := 0,
        avg_loss := 0,
        equity_curve := cfg.candles.map (fun c => ⟨c.timestamp, cfg.initial_capital⟩),
        trade_log := [] } := by
  have h : ¬(cfg.strategy = "ema-crossover" ∨ cfg.strategy = "supertrend") := by
    rintro (h | h) <;> [exact h1 h; exact h2 h]
  have hfin : finalState cfg =
      ⟨cfg.initial_capital, cfg.initial_capital, 0, [],
        cfg.candles.map (fun c => ⟨c.timestamp, cfg.initial_capital⟩), none⟩ := by
    unfold finalState runTrace initState
    rw [simStates_noop_last cfg h]
    simp
  unfold runResult
  rw [if_neg hne, hfin]
  simp [cagrOf_flat, sharpeOf_nil, sortinoOf_nil, winRateOf_nil, profitFactorOf_nil,
    avgWinOf_nil, avgLossOf_nil, round2_zero]

end NoopStrategy

theorem getLast?_replicate {α : Type _} (n : ℕ) (a : α) :
    (List.replicate (n + 1) a).getLast? = some a := by
  induction n with
  | zero => rfl
  | succ n ih =>
    rw [List.replicate_succ, List.replicate_succ, List.getLast?_cons_cons,
      ← List.replicate_succ]
    exact ih

/-- C1: the run loop of backtest.rs never reads the params field of the
config (the moving-average windows are hard-coded to 9 and 21), so two
simulator inputs that agree on everything but params produce identical
output: same trade log, same equity curve, and every statistic equal.
Consequently every ParameterSet evaluated by the Optimizer or the
Walk-Forward Validator scores identically over the same candles. -/
theorem C1_params_ignored (strategy symbol : String) (cap : ℚ)
    (candles : List Backtest.Candle) (p q : Option Backtest.ParameterSet) :
    Backtest.run ⟨strategy, symbol, cap, candles, p⟩ =
      Backtest.run ⟨strategy, symbol, cap, candles, q⟩ := by
  have hsim : ∀ (cs : List Backtest.Candle) (i : ℕ) (st : Backtest.SimState),
      Backtest.simStates ⟨strategy, symbol, cap, candles, p⟩ cs i st =
        Backtest.simStates ⟨strategy, symbol, cap, candles, q⟩ cs i st := by
    intro cs
    induction cs with
    | nil => intro i st; rfl
    | cons c rest ih =>
      intro i st
      rw [Backtest.simStates, Backtest.simStates]
      have hstep : Backtest.stepBar ⟨strategy, symbol, cap, candles, p⟩ i c st =
          Backtest.stepBar ⟨strategy, symbol, cap, candles, q⟩ i c st := rfl
      rw [hstep, ih]
  have hfin : Backtest.finalState ⟨strategy, symbol, cap, candles, p⟩ =
      Backtest.finalState ⟨strategy, symbol, cap, candles, q⟩ := by
    unfold Backtest.finalState Backtest.runTrace
    simp only
    rw [hsim]
  unfold Backtest.run Backtest.runResult
  simp only [hfin]

/-- C2 counterexample: on an empty candle series, run does not fail with a
ConfigError; it succeeds with the all-zero report (backtest.rs lines
60-66), refuting the claim at this concrete input. -/
theorem C2_counterexample :
    Backtest.run ⟨"ema-crossover", "NIFTY", 1000, [], none⟩ =
      Except.ok Backtest.zeroResult := rfl

/-- C2 amended: for every strategy_id, symbol, initial capital and
parameter set, run on an empty candle series succeeds and returns the
all-zero report (zero statistics, empty equity curve, empty trade log)
instead of a ConfigError. -/
theorem C2_empty_candles_all_zero (cfg : Backtest.BacktestConfig)
    (h : cfg.candles = []) :
    Backtest.run cfg = Except.ok Backtest.zeroResult := by
  unfold Backtest.run Backtest.runResult
  rw [if_pos h]

theorem C2_witness :
    (⟨"supertrend", "BANKNIFTY", 500, [], some [("a", 1)]⟩ :
      Backtest.BacktestConfig).candles = [] ∧
    Backtest.run ⟨"supertrend", "BANKNIFTY", 500, [], some [("a", 1)]⟩ =
      Except.ok Backtest.zeroResult :=
  ⟨rfl, C2_empty_candles_all_zero _ rfl⟩

/-- C5: on a non-empty candle series with an unrecognized strategy id, the
simulator succeeds with zero trades and an equity curve holding exactly one
point per input candle, every nav equal to the initial capital. -/
theorem C5_noop_strategy (cfg : Backtest.BacktestConfig)
    (h1 : cfg.strategy ≠ "ema-crossover") (h2 : cfg.strategy ≠ "supertrend") :
    Backtest.run cfg = Except.ok (Backtest.runResult cfg) ∧
    (Backtest.runResult cfg).total_trades = 0 ∧
    (Backtest.runResult cfg).trade_log = [] ∧
    (Backtest.runResult cfg).equity_curve =
      cfg.candles.map (fun c => ⟨c.timestamp, cfg.initial_capital⟩) := by
  have h : ¬(cfg.strategy = "ema-crossover" ∨ cfg.strategy = "supertrend") := by
    rintro (h | h) <;> [exact h1 h; exact h2 h]
  refine ⟨rfl, ?_⟩
  by_cases hne : cfg.candles = []
  · unfold Backtest.runResult
    rw [if_pos hne, hne]
    exact ⟨rfl, rfl, rfl⟩
  · unfold Backtest.runResult
    rw [if_neg hne]
    have hfin : Backtest.finalState cfg =
        ⟨cfg.initial_capital, cfg.initial_capital, 0, [],
          cfg.candles.map (fun c => ⟨c.timestamp, cfg.initial_capital⟩), none⟩ := by
      unfold Backtest.finalState Backtest.runTrace Backtest.initState
      rw [simStates_noop_last cfg h]
      simp
    rw [hfin]
    exact ⟨rfl, rfl, rfl⟩

/-- C3: the claim is right about the intended contract (a ConfigError
result), but the code is wrong: with any empty candidate value list,
generate_combinations indexes values of the empty list while building the
very first combination and panics (index out of bounds) instead of
returning an error, in both optimize.rs and walk_forward.rs. Here the
panic is the none / Failure.panicked outcome, distinct from the
Failure.err outcome that models a returned ConfigError. -/
theorem C3_empty_candidate_list_panics :
    Grid.generate_combinations [("a", [])] = none ∧
    Optimize.compute ⟨"ema-crossover", "NIFTY", 1000, [⟨"d1", 1, 1, 1, 1, 1⟩],
        [("a", [])]⟩ =
      Except.error (Failure.panicked "index out of bounds in generate_combinations") ∧
    WalkForward.compute ⟨"ema-crossover", "NIFTY", 1000,
        List.replicate 60 ⟨"d1", 1, 1, 1, 1, 1⟩, [("a", [])], none, some 2⟩ =
      Except.error (Failure.panicked "index out of bounds in generate_combinations") :=
  ⟨rfl, rfl, rfl⟩

/-- C4 counterexample: a trade log with exactly one trade whose PnL is
negative yields a nonzero (negative) Sortino ratio from the backtest.rs
formula, and a single-element negative return series yields a nonzero
Calmar ratio from risk.rs, refuting the claim that both resolve to 0 on
every empty-or-single-entry series. -/
theorem C4_counterexample :
    round2 (Backtest.sortinoOf
        [⟨"NIFTY", "BUY", 100, 90, 10, -100, "t0", "t1"⟩] 1000) ≠ 0 ∧
    (Risk.compute ⟨[-1/10], 1000, some 0⟩).calmar_ratio ≠ 0 := by
  constructor
  · norm_num [Backtest.sortinoOf, Backtest.downVarOf, Backtest.returnsOf,
      Backtest.meanReturn, sqrtQ, heronStep, round2, roundQ]
  · norm_num [Risk.compute, Risk.ddLoop, Risk.zeroOutput, round4, roundQ]

/-- C4 amended: on an empty or single-trade log the Sharpe ratio is 0 (its
variance guard fires below two trades); the Sortino ratio is 0 whenever no
trade has negative PnL (in particular on an empty log), but a single
losing trade produces a nonzero negative Sortino; the risk-series Calmar
ratio is 0 on an empty series and on a degenerate single non-negative
return (zero drawdown), but not on a single negative return. In the exact
rational model none of these can be NaN or infinite; every division the
formulas perform is guarded by the positivity tests shown here. -/
theorem C4_degenerate_stats :
    (∀ (trades : List Backtest.TradeEntry) (cap : ℚ), trades.length ≤ 1 →
      Backtest.sharpeOf trades cap = 0 ∧ round2 (Backtest.sharpeOf trades cap) = 0) ∧
    (∀ (trades : List Backtest.TradeEntry) (cap : ℚ), 0 < cap →
      (∀ t ∈ trades, 0 ≤ t.pnl) →
      Backtest.sortinoOf trades cap = 0 ∧ round2 (Backtest.sortinoOf trades cap) = 0) ∧
    (∀ (cap r : ℚ) (rfr : Option ℚ), 0 ≤ cap → 0 ≤ r →
      (Risk.compute ⟨[r], cap, rfr⟩).calmar_ratio = 0) ∧
    (∀ (cap : ℚ) (rfr : Option ℚ), (Risk.compute ⟨[], cap, rfr⟩).calmar_ratio = 0) := by
  refine ⟨?_, ?_, ?_, ?_⟩
  · intro trades cap h
    have hz : Backtest.sharpeOf trades cap = 0 := by
      unfold Backtest.sharpeOf
      have hv : Backtest.varianceOf trades cap = 0 := by
        unfold Backtest.varianceOf Backtest.returnsOf
        simp only [List.length_map]
        rw [if_pos (by omega)]
      rw [hv, sqrtQ_of_nonpos le_rfl]
      simp
    exact ⟨hz, by rw [hz, round2_zero]⟩
  · intro trades cap hcap hpnl
    have hz : Backtest.sortinoOf trades cap = 0 := by
      unfold Backtest.sortinoOf
      have hneg : (Backtest.returnsOf trades cap).filter (fun r => decide (r < 0)) = [] := by
        rw [List.filter_eq_nil_iff]
        intro r hr
        unfold Backtest.returnsOf at hr
        obtain ⟨t, ht, rfl⟩ := List.mem_map.mp hr
        simp only [decide_eq_true_eq, not_lt]
        exact div_nonneg (hpnl t ht) (le_of_lt hcap)
      have hdv : Backtest.downVarOf trades cap = 0 := by
        unfold Backtest.downVarOf
        rw [if_pos hneg]
      rw [if_neg (by rw [hdv]; exact lt_irrefl 0)]
    exact ⟨hz, by rw [hz, round2_zero]⟩
  · intro cap r rfr hcap hr
    have hmd : (Risk.ddLoop [r] (cap, cap, 0)).2.2 = 0 := by
      by_cases h : cap < cap * (1 + r)
      · simp [Risk.ddLoop, h]
      · have h1 : cap ≤ cap * (1 + r) := by nlinarith
        have he : cap * (1 + r) = cap := le_antisymm (not_lt.mp h) h1
        simp [Risk.ddLoop, h, he]
    show (Risk.compute ⟨[r], cap, rfr⟩).calmar_ratio = 0
    unfold Risk.compute
    rw [if_neg (by simp)]
    simp only [hmd]
    rw [if_neg (lt_irrefl 0), round4_zero]
  · intro cap rfr
    rfl

theorem C4_witness :
    (Backtest.sharpeOf [] 7 = 0 ∧ round2 (Backtest.sharpeOf [] 7) = 0) ∧
    (Backtest.sortinoOf [⟨"NIFTY", "BUY", 100, 110, 10, 100, "t0", "t1"⟩] 1000 = 0 ∧
      round2 (Backtest.sortinoOf
        [⟨"NIFTY", "BUY", 100, 110, 10, 100, "t0", "t1"⟩] 1000) = 0) ∧
    (Risk.compute ⟨[(1 : ℚ)/2], 100, none⟩).calmar_ratio = 0 ∧
    (Risk.compute ⟨[], 3, none⟩).calmar_ratio = 0 := by
  refine ⟨?_, ?_, ?_, ?_⟩
  · exact C4_degenerate_stats.1 [] 7 (by decide)
  · exact C4_degenerate_stats.2.1 [⟨"NIFTY", "BUY", 100, 110, 10, 100, "t0", "t1"⟩]
      1000 (by norm_num) (by intro t ht; simp at ht; rw [ht]; norm_num)
  · exact C4_degenerate_stats.2.2.1 100 (1/2) none (by norm_num) (by norm_num)
  · exact C4_degenerate_stats.2.2.2 3 none

theorem C5_witness :
    Backtest.run ⟨"hold", "X", 1000, [⟨"d1", 1, 1, 1, 1, 1⟩], none⟩ =
      Except.ok (Backtest.runResult ⟨"hold", "X", 1000, [⟨"d1", 1, 1, 1, 1, 1⟩], none⟩) ∧
    (Backtest.runResult ⟨"hold", "X", 1000, [⟨"d1", 1, 1, 1, 1, 1⟩], none⟩).total_trades = 0 ∧
    (Backtest.runResult ⟨"hold", "X", 1000, [⟨"d1", 1, 1, 1, 1, 1⟩], none⟩).trade_log = [] ∧
    (Backtest.runResult ⟨"hold", "X", 1000, [⟨"d1", 1, 1, 1, 1, 1⟩], none⟩).equity_curve =
      ([⟨"d1", 1, 1, 1, 1, 1⟩] : List Backtest.Candle).map
        (fun c => ⟨c.timestamp, (1000 : ℚ)⟩) :=
  C5_noop_strategy ⟨"hold", "X", 1000, [⟨"d1", 1, 1, 1, 1, 1⟩], none⟩
    (by decide) (by decide)

section RiskVar

open Risk

theorem compute_var95 (input : RiskInput) (hne : input.returns ≠ []) :
    (Risk.compute input).var_95 = round2 (var95Pre input) := by
  unfold Risk.compute
  rw [if_neg hne]

theorem compute_cvar95 (input : RiskInput) (hne : input.returns ≠ []) :
    (Risk.compute input).cvar_95 = round2 (cvar95Pre input) := by
  unfold Risk.compute
  rw [if_neg hne]

theorem var95Idx_lt_length (input : RiskInput) (hne : input.returns ≠ []) :
    var95Idx input.returns < (sortedReturns input.returns).length := by
  have hslen : (sortedReturns input.returns).length = input.returns.length :=
    (List.perm_insertionSort _ _).length_eq
  have hn : 1 ≤ input.returns.length := List.length_pos.mpr hne
  rw [hslen]
  unfold var95Idx truncQ
  have hq : (0:ℚ) ≤ (1 - 95/100) * (input.returns.length : ℚ) := by positivity
  rw [if_neg (not_lt.mpr hq)]
  have h1 : ⌊(1 - 95/100) * ((input.returns.length : ℕ) : ℚ)⌋ <
      (input.returns.length : ℤ) := by
    rw [Int.floor_lt]
    have hc : (1 : ℚ) ≤ ((input.returns.length : ℕ) : ℚ) := by exact_mod_cast hn
    push_cast
    nlinarith
  have h2 : 0 ≤ ⌊(1 - 95/100) * ((input.returns.length : ℕ) : ℚ)⌋ :=
    Int.floor_nonneg.mpr hq
  omega

end RiskVar

/-- C9 counterexample: a 20-element return series whose 5 percent cutoff
return is a gain. Its VaR_95 reads the second-smallest return (2, giving a
reported var_95 of -200) while CVaR_95 averages only the single smallest
return (-1, giving 100), so the CVaR magnitude is strictly below the VaR
magnitude, refuting the claim. -/
theorem C9_counterexample :
    |(Risk.compute ⟨[-1, 2, 2, 2, 2, 2, 2, 2, 2, 2, 2, 2, 2, 2, 2, 2, 2, 2, 2, 2],
        100, some 0⟩).cvar_95| <
    |(Risk.compute ⟨[-1, 2, 2, 2, 2, 2, 2, 2, 2, 2, 2, 2, 2, 2, 2, 2, 2, 2, 2, 2],
        100, some 0⟩).var_95| := by
  rw [compute_var95 _ (by simp), compute_cvar95 _ (by simp)]
  norm_num [Risk.var95Pre, Risk.cvar95Pre, Risk.var95Idx, Risk.sortedReturns,
    truncQ, List.insertionSort, List.orderedInsert, round2, roundQ]

/-- C9 amended: for every non-empty return series, whenever the 5 percent
cutoff entry of the sorted return series (the return VaR_95 reads) is not
a gain - in particular whenever the whole lower tail consists of losses -
the reported CVaR_95 magnitude is at least the reported VaR_95 magnitude.
The original unconditional claim fails only when that cutoff return is
positive (C9_counterexample). -/
theorem C9_cvar_dominates (input : Risk.RiskInput) (hne : input.returns ≠ [])
    (hcut : (Risk.sortedReturns input.returns).getD (Risk.var95Idx input.returns) 0 ≤ 0) :
    |(Risk.compute input).var_95| ≤ |(Risk.compute input).cvar_95| := by
  rw [compute_var95 input hne, compute_cvar95 input hne]
  have hilt := var95Idx_lt_length input hne
  rcases Nat.eq_zero_or_pos (Risk.var95Idx input.returns) with hz | hpos
  · unfold Risk.cvar95Pre
    rw [if_neg (by omega)]
  · have hvar : Risk.var95Pre input =
        -((Risk.sortedReturns input.returns).getD (Risk.var95Idx input.returns) 0) *
          input.initial_capital := by
      unfold Risk.var95Pre
      rw [if_pos hilt]
    have hcvar : Risk.cvar95Pre input =
        -(((Risk.sortedReturns input.returns).take (Risk.var95Idx input.returns)).sum) /
          ((Risk.var95Idx input.returns : ℕ) : ℚ) * input.initial_capital := by
      unfold Risk.cvar95Pre
      rw [if_pos hpos]
    set s := Risk.sortedReturns input.returns with hs
    set i := Risk.var95Idx input.returns with hi
    have hsorted : List.Sorted (· ≤ ·) s := List.sorted_insertionSort _ input.returns
    have hmem : ∀ x ∈ s.take i, x ≤ s.getD i 0 := by
      intro x hx
      obtain ⟨j, hj, hxe⟩ := List.mem_take_iff_getElem.mp hx
      have hji : j < i := lt_of_lt_of_le hj (min_le_left _ _)
      have hjlen : j < s.length := lt_trans hji hilt
      have := List.pairwise_iff_getElem.mp hsorted j i hjlen hilt hji
      rw [List.getD_eq_getElem s 0 hilt, ← hxe]
      exact this
    have hsum : (s.take i).sum ≤ (i : ℚ) * s.getD i 0 := by
      have h1 := List.sum_le_card_nsmul (s.take i) (s.getD i 0) hmem
      rw [List.length_take, min_eq_left (le_of_lt hilt)] at h1
      rw [nsmul_eq_mul] at h1
      exact h1
    have hipos : (0 : ℚ) < (i : ℚ) := by exact_mod_cast hpos
    have hmean : (s.take i).sum / (i : ℚ) ≤ s.getD i 0 := by
      rw [div_le_iff₀ hipos]
      calc (s.take i).sum ≤ (i : ℚ) * s.getD i 0 := hsum
        _ = s.getD i 0 * (i : ℚ) := by ring
    have habs : |(-(s.getD i 0)) * input.initial_capital| ≤
        |(-((s.take i).sum) / (i : ℚ)) * input.initial_capital| := by
      rw [abs_mul, abs_mul]
      refine mul_le_mul_of_nonneg_right ?_ (abs_nonneg _)
      rw [abs_neg, neg_div, abs_neg]
      rw [abs_of_nonpos hcut, abs_of_nonpos (le_trans hmean hcut)]
      exact neg_le_neg hmean
    rw [hvar, hcvar]
    rw [round2_abs, round2_abs]
    refine round2_mono ?_
    calc |(-(s.getD i 0)) * input.initial_capital| ≤
        |(-((s.take i).sum) / (i : ℚ)) * input.initial_capital| := habs
      _ = |(-((s.take i).sum)) / (i : ℚ) * input.initial_capital| := by rw [neg_div]

theorem C9_witness :
    (([-1, -2] : List ℚ) ≠ []) ∧
    (Risk.sortedReturns [-1, -2]).getD (Risk.var95Idx [-1, -2]) 0 ≤ 0 ∧
    |(Risk.compute ⟨[-1, -2], 10, none⟩).var_95| ≤
      |(Risk.compute ⟨[-1, -2], 10, none⟩).cvar_95| := by
  refine ⟨by simp, ?_, ?_⟩
  · norm_num [Risk.sortedReturns, Risk.var95Idx, truncQ,
      List.insertionSort, List.orderedInsert]
  · exact C9_cvar_dominates ⟨[-1, -2], 10, none⟩ (by simp)
      (by norm_num [Risk.sortedReturns, Risk.var95Idx, truncQ,
        List.insertionSort, List.orderedInsert])

section DrawdownInvariant

open Backtest

/-- Loop invariant of the simulator pass: positive nav, nav bounded by the
running peak, and any open position carries a positive entry price. -/
def SimInv (st : SimState) : Prop :=
  0 < st.nav ∧ st.nav ≤ st.peak ∧ ∀ e t, st.position = some (e, t) → 0 < e

/-- The per-bar drawdown (peak - nav) / peak of backtest.rs line 116,
read off a post-update loop state. -/
def ddOf (st : SimState) : ℚ := (st.peak - st.nav) / st.peak

theorem strategyStep_peak (cfg : BacktestConfig) (i : ℕ) (c : Candle) (st : SimState) :
    (strategyStep cfg i c st).peak = st.peak := by
  unfold strategyStep
  repeat' split
  all_goals rfl

theorem strategyStep_inv (cfg : BacktestConfig) (i : ℕ) (c : Candle)
    (nv pk md : ℚ) (tr : List TradeEntry) (eqt : List EquityPoint)
    (pos : Option (ℚ × String)) (hc : 0 ≤ c.close) (hnav : 0 < nv)
    (hpos : ∀ e t, pos = some (e, t) → 0 < e) :
    0 < (strategyStep cfg i c ⟨nv, pk, md, tr, eqt, pos⟩).nav ∧
    (∀ e t, (strategyStep cfg i c ⟨nv, pk, md, tr, eqt, pos⟩).position = some (e, t) →
      0 < e) := by
  cases pos with
  | none =>
    simp only [strategyStep]
    by_cases h1 : cfg.strategy = "ema-crossover" ∨ cfg.strategy = "supertrend"
    case neg => rw [if_neg h1]; exact ⟨hnav, hpos⟩
    rw [if_pos h1]
    by_cases h2 : 21 ≤ i
    case neg => rw [if_neg h2]; exact ⟨hnav, hpos⟩
    rw [if_pos h2]
    by_cases h3 : ema (cfg.candles.take (i + 1)) 21 < ema (cfg.candles.take (i + 1)) 9
    case neg => rw [if_neg h3]; exact ⟨hnav, hpos⟩
    rw [if_pos h3]
    by_cases h4 : 0 < truncQ (nv * (1/10) / c.close)
    case neg => rw [if_neg h4]; exact ⟨hnav, hpos⟩
    rw [if_pos h4]
    refine ⟨hnav, ?_⟩
    intro e t he
    simp only [Option.some.injEq, Prod.mk.injEq] at he
    obtain ⟨h5, -⟩ := he
    subst h5
    rcases eq_or_lt_of_le hc with heq | hlt
    · exfalso
      rw [← heq, div_zero, truncQ_zero] at h4
      exact lt_irrefl 0 h4
    · exact hlt
  | some p =>
    obtain ⟨ep, et⟩ := p
    have he : 0 < ep := hpos ep et rfl
    simp only [strategyStep]
    by_cases h1 : cfg.strategy = "ema-crossover" ∨ cfg.strategy = "supertrend"
    case neg => rw [if_neg h1]; exact ⟨hnav, hpos⟩
    rw [if_pos h1]
    by_cases h2 : 21 ≤ i
    case neg => rw [if_neg h2]; exact ⟨hnav, hpos⟩
    rw [if_pos h2]
    by_cases h3 : ema (cfg.candles.take (i + 1)) 9 < ema (cfg.candles.take (i + 1)) 21
    case neg => rw [if_neg h3]; exact ⟨hnav, hpos⟩
    rw [if_pos h3]
    constructor
    · show 0 < nv + (c.close - ep) * ((truncQ (nv * (1/10) / ep) : ℤ) : ℚ)
      have hx : 0 ≤ nv * (1/10) / ep := by positivity
      have hq0 : (0:ℚ) ≤ ((truncQ (nv * (1/10) / ep) : ℤ) : ℚ) := by
        exact_mod_cast truncQ_nonneg hx
      have hqle : ((truncQ (nv * (1/10) / ep) : ℤ) : ℚ) ≤ nv * (1/10) / ep :=
        truncQ_cast_le hx
      have heq : ep * (nv * (1/10) / ep) = nv * (1/10) := by
        field_simp
        ring
      have hb : ep * ((truncQ (nv * (1/10) / ep) : ℤ) : ℚ) ≤ nv * (1/10) := by
        calc ep * ((truncQ (nv * (1/10) / ep) : ℤ) : ℚ) ≤
            ep * (nv * (1/10) / ep) := mul_le_mul_of_nonneg_left hqle (le_of_lt he)
          _ = nv * (1/10) := heq
      nlinarith [mul_nonneg hc hq0]
    · intro e t he'
      simp at he'

theorem peakUpdate_nav (st : SimState) : (peakUpdate st).nav = st.nav := rfl

theorem peakUpdate_position (st : SimState) :
    (peakUpdate st).position = st.position := rfl

theorem peakUpdate_peak (st : SimState) :
    (peakUpdate st).peak = if st.peak < st.nav then st.nav else st.peak := rfl

theorem pushEquity_nav (c : Candle) (st : SimState) : (pushEquity c st).nav = st.nav := rfl

theorem stepBar_inv (cfg : BacktestConfig) (i : ℕ) (c : Candle) (st : SimState)
    (hc : 0 ≤ c.close) (h : SimInv st) :
    SimInv (stepBar cfg i c st) ∧ st.peak ≤ (stepBar cfg i c st).peak := by
  obtain ⟨nv, pk, md, tr, eqt, pos⟩ := st
  obtain ⟨hnav, hpk, hpos⟩ := h
  obtain ⟨h2nav, h2pos⟩ :=
    strategyStep_inv cfg i c nv pk md tr (eqt ++ [⟨c.timestamp, nv⟩]) pos hc hnav hpos
  have hpeak2 :
      (strategyStep cfg i c ⟨nv, pk, md, tr, eqt ++ [⟨c.timestamp, nv⟩], pos⟩).peak = pk :=
    strategyStep_peak cfg i c _
  unfold stepBar
  have hpe : pushEquity c ⟨nv, pk, md, tr, eqt, pos⟩ =
      ⟨nv, pk, md, tr, eqt ++ [⟨c.timestamp, nv⟩], pos⟩ := rfl
  rw [hpe]
  set st2 := strategyStep cfg i c ⟨nv, pk, md, tr, eqt ++ [⟨c.timestamp, nv⟩], pos⟩ with hst2
  constructor
  · refine ⟨?_, ?_, ?_⟩
    · rw [peakUpdate_nav]; exact h2nav
    · rw [peakUpdate_nav, peakUpdate_peak]
      by_cases h4 : st2.peak < st2.nav
      · rw [if_pos h4]
      · rw [if_neg h4]; exact not_lt.mp h4
    · intro e t he
      rw [peakUpdate_position] at he
      exact h2pos e t he
  · show pk ≤ (peakUpdate st2).peak
    rw [peakUpdate_peak, hpeak2]
    by_cases h4 : pk < st2.nav
    · rw [if_pos h4]; exact le_of_lt h4
    · rw [if_neg h4]

theorem simStates_inv (cfg : BacktestConfig) :
    ∀ (cs : List Candle) (i : ℕ) (st : SimState),
    (∀ c ∈ cs, 0 ≤ c.close) → SimInv st →
    List.Chain' (fun a b => a.peak ≤ b.peak) (st :: simStates cfg cs i st) ∧
    ∀ st' ∈ simStates cfg cs i st, SimInv st' := by
  intro cs
  induction cs with
  | nil =>
    intro i st hc hinv
    exact ⟨by simp [simStates], by simp [simStates]⟩
  | cons c rest ih =>
    intro i st hc hinv
    have hstep := stepBar_inv cfg i c st (hc c (by simp)) hinv
    have hrest := ih (i + 1) (stepBar cfg i c st)
      (fun c' h' => hc c' (by simp [h'])) hstep.1
    rw [simStates]
    constructor
    · rw [List.chain'_cons]
      exact ⟨hstep.2, hrest.1⟩
    · intro st' hmem
      rcases List.mem_cons.mp hmem with hmem | hmem
      · rw [hmem]; exact hstep.1
      · exact hrest.2 st' hmem

end DrawdownInvariant

/-- C6: throughout the single forward pass, for positive initial capital
and non-negative close prices, the running peak nav never decreases from
bar to bar (starting at the initial capital) and the per-bar drawdown
(peak - nav) / peak lies in the interval from 0 to 1 at every bar. -/
theorem C6_peak_monotone_drawdown_bounded (cfg : Backtest.BacktestConfig)
    (hcap : 0 < cfg.initial_capital) (hc : ∀ c ∈ cfg.candles, 0 ≤ c.close) :
    List.Chain' (fun a b => a.peak ≤ b.peak)
      (Backtest.initState cfg.initial_capital :: Backtest.runTrace cfg) ∧
    ∀ st ∈ Backtest.runTrace cfg, 0 ≤ ddOf st ∧ ddOf st ≤ 1 := by
  have h0 : SimInv (Backtest.initState cfg.initial_capital) := by
    refine ⟨hcap, le_refl _, ?_⟩
    intro e t he
    simp [Backtest.initState] at he
  have h := simStates_inv cfg cfg.candles 0 (Backtest.initState cfg.initial_capital) hc h0
  refine ⟨h.1, ?_⟩
  intro st hmem
  obtain ⟨hnav, hpk, -⟩ := h.2 st hmem
  have hpkpos : 0 < st.peak := lt_of_lt_of_le hnav hpk
  unfold ddOf
  constructor
  · exact div_nonneg (by linarith) (le_of_lt hpkpos)
  · rw [div_le_one hpkpos]
    linarith

theorem C6_witness :
    ((0 : ℚ) < (1000 : ℚ)) ∧
    (List.Chain' (fun a b => a.peak ≤ b.peak)
      (Backtest.initState (1000 : ℚ) ::
        Backtest.runTrace ⟨"ema-crossover", "X", 1000, [⟨"d1", 1, 2, 1, 1, 5⟩], none⟩) ∧
    ∀ st ∈ Backtest.runTrace ⟨"ema-crossover", "X", 1000, [⟨"d1", 1, 2, 1, 1, 5⟩], none⟩,
      0 ≤ ddOf st ∧ ddOf st ≤ 1) :=
  ⟨by norm_num,
    C6_peak_monotone_drawdown_bounded ⟨"ema-crossover", "X", 1000, [⟨"d1", 1, 2, 1, 1, 5⟩], none⟩
      (by norm_num) (by intro c hcm; simp at hcm; rw [hcm]; norm_num)⟩

/-- C7: every successful optimize call returns a non-empty leaderboard
sorted in descending order of sharpe_ratio, with best_params and
best_sharpe taken from the first leaderboard entry. -/
theorem C7_leaderboard_sorted (cfg : Optimize.OptimizeConfig)
    (res : Optimize.OptimizeResult) (h : Optimize.compute cfg = Except.ok res) :
    res.all_results ≠ [] ∧
    List.Pairwise
      (fun a b : Optimize.ParamResult => b.sharpe_ratio ≤ a.sharpe_ratio)
      res.all_results ∧
    res.best_params = (res.all_results.headD Optimize.defaultBest).params ∧
    res.best_sharpe = (res.all_results.headD Optimize.defaultBest).sharpe_ratio := by
  unfold Optimize.compute at h
  split at h
  next => simp at h
  next hne =>
    split at h
    next => simp at h
    next combos heq =>
      split at h
      next => simp at h
      next hce =>
        simp only [Except.ok.injEq] at h
        subst h
        have hperm := List.perm_insertionSort Optimize.sharpeDesc
          (combos.map (Optimize.evalCombo cfg))
        have hnn : (combos.map (Optimize.evalCombo cfg)).insertionSort
            Optimize.sharpeDesc ≠ [] := by
          intro hcon
          have hlen := hperm.length_eq
          rw [hcon, List.length_nil, List.length_map] at hlen
          exact hce (List.length_eq_zero.mp hlen.symm)
        refine ⟨hnn, ?_, rfl, rfl⟩
        exact List.sorted_insertionSort Optimize.sharpeDesc
          (combos.map (Optimize.evalCombo cfg))

/-- Concrete optimize input for the C7 witness: one candle, a one-key grid
with two candidates. -/
def c7cfg : Optimize.OptimizeConfig :=
  ⟨"noop", "X", 1000, [⟨"d1", 1, 1, 1, 1, 1⟩], [("a", [1, 2])]⟩

/-- The output optimize produces on c7cfg. -/
def c7res : Optimize.OptimizeResult :=
  ⟨[("a", 1)], 0, 0, 0,
    [⟨[("a", 1)], 0, 0, 0, 0, 0, 0⟩, ⟨[("a", 2)], 0, 0, 0, 0, 0, 0⟩]⟩

theorem C7_witness :
    Optimize.compute c7cfg = Except.ok c7res ∧
    (c7res.all_results ≠ [] ∧
    List.Pairwise
      (fun a b : Optimize.ParamResult => b.sharpe_ratio ≤ a.sharpe_ratio)
      c7res.all_results ∧
    c7res.best_params = (c7res.all_results.headD Optimize.defaultBest).params ∧
    c7res.best_sharpe = (c7res.all_results.headD Optimize.defaultBest).sharpe_ratio) := by
  have hEq : Optimize.compute c7cfg = Except.ok c7res := by
    norm_num [c7cfg, c7res, Optimize.compute, Grid.generate_combinations, Grid.gridSize,
      Grid.genLoop, Grid.buildCombo, Grid.advance, Optimize.evalCombo,
      Backtest.runResult, Backtest.finalState, Backtest.runTrace, Backtest.simStates,
      Backtest.stepBar, Backtest.pushEquity, Backtest.strategyStep, Backtest.peakUpdate,
      Backtest.initState, Backtest.cagrOf, Backtest.winRateOf,
      Backtest.profitFactorOf, Backtest.avgWinOf, Backtest.avgLossOf, Backtest.winsOf,
      Backtest.lossesOf, Backtest.sharpeOf, Backtest.sortinoOf, Backtest.varianceOf,
      Backtest.downVarOf, Backtest.meanReturn, Backtest.returnsOf, powQ, sqrtQ, heronStep,
      round2, roundQ, truncQ, List.insertionSort, List.orderedInsert, List.replicate,
      Optimize.sharpeDesc, Optimize.defaultBest]
    intro hcon
    simp at hcon
  exact ⟨hEq, C7_leaderboard_sorted c7cfg c7res hEq⟩

section WalkForwardRoundTrip

open WalkForward Backtest

theorem bestLoop_spec (cfg : WalkForwardConfig) (fold : ℕ) :
    ∀ (l : List ParameterSet) (c0 : ParameterSet),
    ∃ c, bestLoop cfg fold l (some (runSharpe cfg (inSample cfg fold) c0), c0) =
      (some (runSharpe cfg (inSample cfg fold) c), c) := by
  intro l
  induction l with
  | nil => intro c0; exact ⟨c0, rfl⟩
  | cons combo rest ih =>
    intro c0
    rw [bestLoop]
    by_cases hlt : runSharpe cfg (inSample cfg fold) c0 <
        runSharpe cfg (inSample cfg fold) combo
    · simp only [if_pos hlt]
      exact ih combo
    · simp only [if_neg hlt]
      exact ih c0

theorem bestInSample_spec (cfg : WalkForwardConfig) (combos : List ParameterSet)
    (fold : ℕ) (hc : combos ≠ []) :
    ∃ c, bestInSample cfg combos fold =
      (some (runSharpe cfg (inSample cfg fold) c), c) := by
  cases combos with
  | nil => exact absurd rfl hc
  | cons combo rest =>
    unfold bestInSample
    rw [bestLoop]
    exact bestLoop_spec cfg fold rest combo

/-- The reported sharpe_ratio of any backtest is a fixed point of round2:
it is 0 on the empty-candle path and already rounded otherwise. -/
theorem runResult_sharpe_round2 (cfg : BacktestConfig) :
    round2 (runResult cfg).sharpe_ratio = (runResult cfg).sharpe_ratio := by
  unfold runResult
  by_cases h : cfg.candles = []
  · rw [if_pos h]
    show round2 zeroResult.sharpe_ratio = zeroResult.sharpe_ratio
    show round2 0 = 0
    exact round2_zero
  · rw [if_neg h]
    exact round2_round2 _

theorem processFold_spec (cfg : WalkForwardConfig) (combos : List ParameterSet)
    (k : ℕ) (f : FoldResult) (hc : combos ≠ [])
    (h : processFold cfg combos k = some f) :
    f.fold = k ∧
    f.in_sample_sharpe = round2 (runSharpe cfg (inSample cfg k) f.best_params) := by
  obtain ⟨c, hbest⟩ := bestInSample_spec cfg combos k hc
  unfold processFold at h
  simp only [] at h
  rw [hbest] at h
  split at h
  next => exact absurd h (by simp)
  next =>
    simp only [Option.some.injEq] at h
    subst h
    exact ⟨rfl, rfl⟩

end WalkForwardRoundTrip

/-- C10: for every fold in a successful validate result, running the
simulator alone on that fold's in-sample candle segment with the fold's
winning parameter set reproduces exactly the in_sample_sharpe reported for
that fold. -/
theorem C10_in_sample_roundtrip (cfg : WalkForward.WalkForwardConfig)
    (res : WalkForward.WalkForwardResult)
    (h : WalkForward.compute cfg = Except.ok res)
    (f : WalkForward.FoldResult) (hf : f ∈ res.folds) :
    (Backtest.runResult (WalkForward.btConfig cfg
        (WalkForward.inSample cfg f.fold) f.best_params)).sharpe_ratio =
      f.in_sample_sharpe := by
  unfold WalkForward.compute at h
  split at h
  next => simp at h
  next h60 =>
    split at h
    next => simp at h
    next hfs =>
      split at h
      next => simp at h
      next combos heq =>
        split at h
        next => simp at h
        next hce =>
          simp only [] at h
          split at h
          next => simp at h
          next hnf =>
            simp only [Except.ok.injEq] at h
            subst h
            simp only at hf
            obtain ⟨k, hk, hpf⟩ := List.mem_filterMap.mp hf
            obtain ⟨hfold, hsharpe⟩ :=
              processFold_spec cfg combos k f hce hpf
            rw [hfold, hsharpe]
            exact (runResult_sharpe_round2 _).symm

/-- Concrete walk-forward input for the C10 witness: 60 flat candles, two
folds, an empty grid (one empty parameter set). -/
def c10cfg : WalkForward.WalkForwardConfig :=
  ⟨"noop", "X", 1000, List.replicate 60 ⟨"d", 1, 1, 1, 1, 1⟩, [], none, some 2⟩

/-- The fold results validate produces on c10cfg. -/
def c10fold0 : WalkForward.FoldResult := ⟨0, 0, 0, 0, 0, [], 0, 0, 0⟩

def c10fold1 : WalkForward.FoldResult := ⟨1, 0, 0, 0, 0, [], 0, 0, 0⟩

/-- The full result validate produces on c10cfg. -/
def c10res : WalkForward.WalkForwardResult :=
  ⟨[c10fold0, c10fold1], ⟨0, 0, 0, 0, 0, 0⟩, [], 0⟩

theorem c10_foldCandles0 :
    WalkForward.foldCandles c10cfg 0 = List.replicate 30 ⟨"d", 1, 1, 1, 1, 1⟩ := by
  norm_num [WalkForward.foldCandles, WalkForward.numFoldsOf, WalkForward.foldSizeOf,
    c10cfg, List.take_replicate, min_def, max_def]

theorem c10_foldCandles1 :
    WalkForward.foldCandles c10cfg 1 = List.replicate 30 ⟨"d", 1, 1, 1, 1, 1⟩ := by
  norm_num [WalkForward.foldCandles, WalkForward.numFoldsOf, WalkForward.foldSizeOf,
    c10cfg, List.take_replicate, List.drop_replicate, min_def, max_def]

theorem c10_processFold (k : ℕ)
    (hfc : WalkForward.foldCandles c10cfg k = List.replicate 30 ⟨"d", 1, 1, 1, 1, 1⟩) :
    WalkForward.processFold c10cfg [[]] k = some ⟨k, 0, 0, 0, 0, [], 0, 0, 0⟩ := by
  have hsplit : WalkForward.splitOf c10cfg k = 21 := by
    rw [WalkForward.splitOf, hfc]
    norm_num [WalkForward.isRatioOf, c10cfg, truncQ, min_def, max_def]
    decide
  have hin : WalkForward.inSample c10cfg k = List.replicate 21 ⟨"d", 1, 1, 1, 1, 1⟩ := by
    rw [WalkForward.inSample, hfc, hsplit]
    norm_num [List.take_replicate, min_def]
  have hout : WalkForward.outSample c10cfg k = List.replicate 9 ⟨"d", 1, 1, 1, 1, 1⟩ := by
    rw [WalkForward.outSample, hfc, hsplit]
    norm_num [List.drop_replicate]
  have hne21 : (List.replicate 21 (⟨"d", 1, 1, 1, 1, 1⟩ : Backtest.Candle)) ≠ [] := by
    intro hcon
    have := congrArg List.length hcon
    simp at this
  have hne9 : (List.replicate 9 (⟨"d", 1, 1, 1, 1, 1⟩ : Backtest.Candle)) ≠ [] := by
    intro hcon
    have := congrArg List.length hcon
    simp at this
  have hbt21 : Backtest.runResult
      (WalkForward.btConfig c10cfg (List.replicate 21 ⟨"d", 1, 1, 1, 1, 1⟩) []) =
      { cagr := 0, max_drawdown := 0, sharpe_ratio := 0, sortino_ratio := 0,
        win_rate := 0, profit_factor := 0, total_trades := 0, avg_win := 0,
        avg_loss := 0,
        equity_curve := List.replicate 21 ⟨"d", (1000 : ℚ)⟩, trade_log := [] } := by
    rw [runResult_noop _ (by decide) (by decide) hne21]
    simp [WalkForward.btConfig, c10cfg, List.map_replicate]
  have hbt9 : Backtest.runResult
      (WalkForward.btConfig c10cfg (List.replicate 9 ⟨"d", 1, 1, 1, 1, 1⟩) []) =
      { cagr := 0, max_drawdown := 0, sharpe_ratio := 0, sortino_ratio := 0,
        win_rate := 0, profit_factor := 0, total_trades := 0, avg_win := 0,
        avg_loss := 0,
        equity_curve := List.replicate 9 ⟨"d", (1000 : ℚ)⟩, trade_log := [] } := by
    rw [runResult_noop _ (by decide) (by decide) hne9]
    simp [WalkForward.btConfig, c10cfg, List.map_replicate]
  have hbest : WalkForward.bestInSample c10cfg [[]] k = (some 0, []) := by
    unfold WalkForward.bestInSample WalkForward.bestLoop
    simp only [WalkForward.runSharpe, hin, hbt21]
    rfl
  have hlast : (List.replicate 9 (⟨"d", (1000 : ℚ)⟩ : Backtest.EquityPoint)).getLast? =
      some ⟨"d", (1000 : ℚ)⟩ := getLast?_replicate 8 _
  unfold WalkForward.processFold
  simp only []
  rw [hsplit, hfc]
  rw [if_neg (by norm_num)]
  rw [hbest]
  simp only [hin, hout, hbt21, hbt9, hlast]
  norm_num [c10cfg, round2_zero]

set_option maxHeartbeats 1600000 in
theorem C10_witness :
    WalkForward.compute c10cfg = Except.ok c10res ∧
    c10fold0 ∈ c10res.folds ∧
    (Backtest.runResult (WalkForward.btConfig c10cfg
        (WalkForward.inSample c10cfg c10fold0.fold) c10fold0.best_params)).sharpe_ratio =
      c10fold0.in_sample_sharpe := by
  have hEq : WalkForward.compute c10cfg = Except.ok c10res := by
    have h60 : ¬ c10cfg.candles.length < 60 := by simp [c10cfg]
    have hfs : ¬ WalkForward.foldSizeOf c10cfg < 20 := by
      norm_num [WalkForward.foldSizeOf, WalkForward.numFoldsOf, c10cfg, min_def, max_def]
    have hgen : Grid.generate_combinations c10cfg.param_grid = some [[]] := rfl
    have hnf : WalkForward.numFoldsOf c10cfg = 2 := by
      norm_num [WalkForward.numFoldsOf, c10cfg, min_def, max_def]
    have hrange : List.range (WalkForward.numFoldsOf c10cfg) = [0, 1] := by
      rw [hnf]
      rfl
    have hpf0 := c10_processFold 0 c10_foldCandles0
    have hpf1 := c10_processFold 1 c10_foldCandles1
    unfold WalkForward.compute
    rw [if_neg h60, if_neg hfs, hgen]
    simp only []
    rw [if_neg (by simp : ¬ ([[]] : List Backtest.ParameterSet) = [])]
    rw [hrange]
    simp only [List.filterMap_cons, hpf0, hpf1, List.filterMap_nil]
    rw [if_neg (by simp)]
    norm_num [c10res, c10fold0, c10fold1, WalkForward.paramScores,
      WalkForward.addScore, WalkForward.bestRobust, round2_zero]
  exact ⟨hEq, by simp [c10res],
    C10_in_sample_roundtrip c10cfg c10res hEq c10fold0 (by simp [c10res])⟩

section OdometerCorrectness

open Grid Backtest

/-- Index validity for the odometer: one digit per grid key, each digit
within its candidate list. -/
def ValidIdx (grid : ParamGrid) (idx : List ℕ) : Prop :=
  List.Forall₂ (fun kv i => i < kv.2.length) grid idx

/-- Proof device (not part of the code model): the combinations the
odometer still has to emit when its digits read idx, in emission order. -/
def suffixProd : ParamGrid → List ℕ → List ParameterSet
  | [], _ => [[]]
  | _ :: _, [] => []
  | (k, vs) :: g, i :: is =>
    if h : i < vs.length then
      ((suffixProd g is).map fun c => (k, vs[i]) :: c) ++
        ((vs.drop (i + 1)).flatMap fun w => (cartesian g).map fun c => (k, w) :: c)
    else []

theorem validIdx_zeros (grid : ParamGrid) (hne : ∀ kv ∈ grid, kv.2 ≠ []) :
    ValidIdx grid (List.replicate grid.length 0) := by
  induction grid with
  | nil => exact List.Forall₂.nil
  | cons kv g ih =>
    rw [List.length_cons, List.replicate_succ]
    refine List.Forall₂.cons ?_ (ih (fun kv' h' => hne kv' (List.mem_cons_of_mem _ h')))
    exact List.length_pos.mpr (hne kv (List.mem_cons_self _ _))

theorem suffixProd_zeros (grid : ParamGrid) (hne : ∀ kv ∈ grid, kv.2 ≠ []) :
    suffixProd grid (List.replicate grid.length 0) = cartesian grid := by
  induction grid with
  | nil => rfl
  | cons kv g ih =>
    obtain ⟨k, vs⟩ := kv
    have hlen : 0 < vs.length :=
      List.length_pos.mpr (hne (k, vs) (List.mem_cons_self _ _))
    rw [List.length_cons, List.replicate_succ]
    rw [suffixProd, dif_pos hlen,
      ih (fun kv' h' => hne kv' (List.mem_cons_of_mem _ h'))]
    have hv : vs = vs[0] :: vs.drop 1 := by
      have hd := List.drop_eq_getElem_cons hlen
      rwa [List.drop_zero] at hd
    show _ = vs.flatMap fun v => (cartesian g).map fun c => (k, v) :: c
    conv_rhs => rw [hv]
    rw [List.flatMap_cons]

theorem advance_spec (grid : ParamGrid) (idx : List ℕ) (hv : ValidIdx grid idx) :
    ∃ hc, buildCombo grid idx = some hc ∧
      ValidIdx grid (advance grid idx).1 ∧
      ((advance grid idx).2 = true ∧ suffixProd grid idx = [hc] ∧
        suffixProd grid (advance grid idx).1 = cartesian grid ∨
       (advance grid idx).2 = false ∧
        suffixProd grid idx = hc :: suffixProd grid (advance grid idx).1) := by
  induction hv with
  | nil => exact ⟨[], rfl, List.Forall₂.nil, Or.inl ⟨rfl, rfl, rfl⟩⟩
  | @cons kv i g is h1 h2 ih =>
    obtain ⟨k, vs⟩ := kv
    simp only at h1
    obtain ⟨hcT, hbT, hvT, hcase⟩ := ih
    have hbc : buildCombo ((k, vs) :: g) (i :: is) = some ((k, vs[i]) :: hcT) := by
      rw [buildCombo, List.getElem?_eq_getElem h1, hbT]
    rcases hA : advance g is with ⟨is', carry⟩
    rw [hA] at hvT hcase
    simp only at hvT hcase
    cases carry with
    | true =>
      rcases hcase with ⟨-, hsing, hzero⟩ | ⟨hfalse, -⟩
      swap
      · exact absurd hfalse (by simp)
      by_cases hlast : vs.length ≤ i + 1
      · have hAC : advance ((k, vs) :: g) (i :: is) = (0 :: is', true) := by
          rw [advance, hA]
          simp [hlast]
        refine ⟨(k, vs[i]) :: hcT, hbc, ?_, Or.inl ⟨?_, ?_, ?_⟩⟩
        · rw [hAC]
          exact List.Forall₂.cons (lt_of_le_of_lt (Nat.zero_le i) h1) hvT
        · rw [hAC]
        · rw [suffixProd, dif_pos h1, hsing, List.drop_eq_nil_of_le hlast]
          simp
        · rw [hAC]
          have h0 : 0 < vs.length := lt_of_le_of_lt (Nat.zero_le i) h1
          rw [suffixProd, dif_pos h0, hzero]
          have hv0 : vs = vs[0] :: vs.drop 1 := by
            have hd := List.drop_eq_getElem_cons h0
            rwa [List.drop_zero] at hd
          show _ = vs.flatMap fun v => (cartesian g).map fun c => (k, v) :: c
          conv_rhs => rw [hv0]
          rw [List.flatMap_cons]
      · have hlast' : i + 1 < vs.length := Nat.not_le.mp hlast
        have hAC : advance ((k, vs) :: g) (i :: is) = ((i + 1) :: is', false) := by
          rw [advance, hA]
          simp [hlast]
        refine ⟨(k, vs[i]) :: hcT, hbc, ?_, Or.inr ⟨?_, ?_⟩⟩
        · rw [hAC]
          exact List.Forall₂.cons hlast' hvT
        · rw [hAC]
        · rw [hAC]
          rw [suffixProd, dif_pos h1, hsing]
          rw [suffixProd, dif_pos hlast', hzero]
          have hd : vs.drop (i + 1) = vs[i + 1] :: vs.drop (i + 2) :=
            List.drop_eq_getElem_cons hlast'
          rw [hd, List.flatMap_cons]
          simp
    | false =>
      rcases hcase with ⟨htrue, -, -⟩ | ⟨-, hcons⟩
      · exact absurd htrue (by simp)
      have hAC : advance ((k, vs) :: g) (i :: is) = (i :: is', false) := by
        rw [advance, hA]
        simp
      refine ⟨(k, vs[i]) :: hcT, hbc, ?_, Or.inr ⟨?_, ?_⟩⟩
      · rw [hAC]
        exact List.Forall₂.cons h1 hvT
      · rw [hAC]
      · rw [hAC]
        rw [suffixProd, dif_pos h1, hcons]
        rw [suffixProd, dif_pos h1]
        simp

theorem genLoop_spec (grid : ParamGrid) :
    ∀ (fuel : ℕ) (idx : List ℕ), ValidIdx grid idx →
    (suffixProd grid idx).length ≤ fuel →
    genLoop grid fuel idx = some (suffixProd grid idx) := by
  intro fuel
  induction fuel with
  | zero =>
    intro idx hv hlen
    obtain ⟨hc, -, -, hcase⟩ := advance_spec grid idx hv
    rcases hcase with ⟨-, hsing, -⟩ | ⟨-, hcons⟩
    · rw [hsing] at hlen
      simp at hlen
    · rw [hcons] at hlen
      simp at hlen
  | succ fuel ih =>
    intro idx hv hlen
    obtain ⟨hc, hbc, hva, hcase⟩ := advance_spec grid idx hv
    rcases hAp : advance grid idx with ⟨idx', carry⟩
    rw [hAp] at hva hcase
    simp only at hva hcase
    rcases hcase with ⟨hcar, hsing, -⟩ | ⟨hcar, hcons⟩
    · subst hcar
      rw [genLoop, hbc, hAp, hsing]
      simp
    · subst hcar
      have hrec : genLoop grid fuel idx' = some (suffixProd grid idx') := by
        refine ih idx' hva ?_
        rw [hcons] at hlen
        simpa using hlen
      rw [genLoop, hbc, hAp, hcons]
      simp [hrec]

theorem sum_map_const {α : Type _} (l : List α) (n : ℕ) :
    (l.map (fun _ => n)).sum = l.length * n := by
  induction l with
  | nil => simp
  | cons x xs ih =>
    rw [List.map_cons, List.sum_cons, ih, List.length_cons]
    ring

theorem length_cartesian (grid : ParamGrid) :
    (cartesian grid).length = gridSize grid := by
  induction grid with
  | nil => rfl
  | cons kv g ih =>
    obtain ⟨k, vs⟩ := kv
    rw [cartesian, List.length_flatMap]
    have hmap : List.map (List.length ∘ fun v => (cartesian g).map fun c => (k, v) :: c) vs =
        List.map (fun _ => gridSize g) vs := by
      refine List.map_congr_left ?_
      intro v hvm
      simp [Function.comp, ih]
    rw [hmap, sum_map_const]
    simp [gridSize]

theorem mem_cartesian (grid : ParamGrid) (combo : ParameterSet) :
    combo ∈ cartesian grid ↔
      List.Forall₂ (fun kv p => p.1 = kv.1 ∧ p.2 ∈ kv.2) grid combo := by
  induction grid generalizing combo with
  | nil =>
    rw [cartesian]
    simp [List.forall₂_nil_left_iff, eq_comm]
  | cons kv g ih =>
    obtain ⟨k, vs⟩ := kv
    rw [cartesian]
    constructor
    · intro hm
      obtain ⟨v, hvm, hcm⟩ := List.mem_flatMap.mp hm
      obtain ⟨c, hcc, rfl⟩ := List.mem_map.mp hcm
      exact List.Forall₂.cons ⟨rfl, hvm⟩ ((ih c).mp hcc)
    · intro hf
      cases hf with
      | cons hp hrest =>
        rename_i p cs
        obtain ⟨hp1, hp2⟩ := hp
        simp only at hp1 hp2
        refine List.mem_flatMap.mpr ⟨p.2, hp2, List.mem_map.mpr ⟨cs, (ih cs).mpr hrest, ?_⟩⟩
        rw [← hp1]

theorem nodup_cartesian (grid : ParamGrid) (h : ∀ kv ∈ grid, kv.2.Nodup) :
    (cartesian grid).Nodup := by
  induction grid with
  | nil => simp [cartesian]
  | cons kv g ih =>
    obtain ⟨k, vs⟩ := kv
    have hg : (cartesian g).Nodup := ih (fun kv' h' => h kv' (List.mem_cons_of_mem _ h'))
    have hvs : vs.Nodup := h (k, vs) (List.mem_cons_self _ _)
    rw [cartesian]
    clear h ih
    induction vs with
    | nil => simp
    | cons w ws ihw =>
      rw [List.flatMap_cons, List.nodup_append]
      obtain ⟨hw, hws⟩ := List.nodup_cons.mp hvs
      refine ⟨?_, ihw hws, ?_⟩
      · refine List.Nodup.map ?_ hg
        intro c1 c2 hcc
        exact (List.cons.injEq _ _ _ _).mp hcc |>.2
      · intro x hx1 hx2
        obtain ⟨c1, -, rfl⟩ := List.mem_map.mp hx1
        obtain ⟨w', hw', hxm⟩ := List.mem_flatMap.mp hx2
        obtain ⟨c2, -, hx⟩ := List.mem_map.mp hxm
        have : w' = w := by
          have := (List.cons.injEq _ _ _ _).mp hx |>.1
          exact (Prod.mk.injEq _ _ _ _).mp this |>.2
        exact hw (this ▸ hw')

end OdometerCorrectness

/-- C8 counterexample: on the two-key grid a maps to [1, 2], b maps to
[10, 20] (in that key order), the code's enumeration cycles the LAST key
fastest, so its second combination is a=1, b=20; the spec's claimed order,
with the FIRST key as least-significant digit (cartesianFirstLSD), puts
a=2, b=10 second. The outputs differ, refuting the claimed order. -/
theorem C8_counterexample :
    Grid.generate_combinations [("a", [1, 2]), ("b", [10, 20])] ≠
      some (Grid.cartesianFirstLSD [("a", [1, 2]), ("b", [10, 20])]) := by
  have h1 : Grid.generate_combinations [("a", [1, 2]), ("b", [10, 20])] =
      some [[("a", 1), ("b", 10)], [("a", 1), ("b", 20)],
        [("a", 2), ("b", 10)], [("a", 2), ("b", 20)]] := by
    norm_num [Grid.generate_combinations, Grid.gridSize, Grid.genLoop,
      Grid.buildCombo, Grid.advance, List.replicate]
    intro hcon
    simp at hcon
  have h2 : Grid.cartesianFirstLSD [("a", [1, 2]), ("b", [10, 20])] =
      [[("a", 1), ("b", 10)], [("a", 2), ("b", 10)],
        [("a", 1), ("b", 20)], [("a", 2), ("b", 20)]] := by
    norm_num [Grid.cartesianFirstLSD]
  rw [h1, h2]
  intro hcon
  simp only [Option.some.injEq, List.cons.injEq, Prod.mk.injEq] at hcon
  norm_num at hcon

/-- C8 amended: for every grid whose candidate lists are all non-empty,
generate_combinations succeeds and produces exactly the full Cartesian
product in deterministic odometer order with the LAST key as the
least-significant (fastest cycling) digit - the order cartesian defines -
for a total equal to the product of the list lengths; each combination
(one value per key, in key order) appears, and appears exactly once when
the candidate lists are duplicate-free. An empty grid yields exactly one
empty ParameterSet (the grid [] instance of the first conjunct, since
cartesian [] = [[]]). -/
theorem C8_cartesian_product (grid : Grid.ParamGrid)
    (hne : ∀ kv ∈ grid, kv.2 ≠ []) :
    Grid.generate_combinations grid = some (Grid.cartesian grid) ∧
    (Grid.cartesian grid).length = Grid.gridSize grid ∧
    (∀ combo, combo ∈ Grid.cartesian grid ↔
      List.Forall₂ (fun kv p => p.1 = kv.1 ∧ p.2 ∈ kv.2) grid combo) ∧
    ((∀ kv ∈ grid, kv.2.Nodup) → (Grid.cartesian grid).Nodup) := by
  refine ⟨?_, length_cartesian grid, fun combo => mem_cartesian grid combo,
    nodup_cartesian grid⟩
  unfold Grid.generate_combinations
  by_cases hg : grid = []
  · rw [if_pos hg, hg]
    rfl
  · rw [if_neg hg]
    have hlen : (suffixProd grid (List.replicate grid.length 0)).length ≤
        max 1 (Grid.gridSize grid) := by
      rw [suffixProd_zeros grid hne, length_cartesian]
      exact le_max_right _ _
    rw [genLoop_spec grid (max 1 (Grid.gridSize grid)) _ (validIdx_zeros grid hne) hlen,
      suffixProd_zeros grid hne]

theorem C8_witness :
    Grid.generate_combinations [("x", [1, 2]), ("y", [5])] =
      some (Grid.cartesian [("x", [1, 2]), ("y", [5])]) ∧
    (Grid.cartesian [("x", [1, 2]), ("y", [5])]).length =
      Grid.gridSize [("x", [1, 2]), ("y", [5])] ∧
    (Grid.cartesian [("x", [1, 2]), ("y", [5])]).Nodup := by
  have h := C8_cartesian_product [("x", [1, 2]), ("y", [5])]
    (by
      intro kv hkv
      simp only [List.mem_cons, List.not_mem_nil, or_false] at hkv
      rcases hkv with rfl | rfl <;> simp)
  exact ⟨h.1, h.2.1,
    h.2.2.2 (by
      intro kv hkv
      simp only [List.mem_cons, List.not_mem_nil, or_false] at hkv
      rcases hkv with rfl | rfl <;> norm_num)⟩

end PaperPort
